import Mathlib

/-!
Shallow embedding of the `h5_dumper` module parser (`src/loader.rs`,
`src/common.rs`).  A module file is a seekable byte stream; we model it as a
`List Nat` of byte values together with a current position.  Reader
operations are functions from the current position to a result carrying the
new position; errors keep the position at which they occurred, mirroring the
fact that a Rust `BufReader` retains its position when an operation fails.
Panics (`unwrap`, out-of-bounds slicing) are modelled as the distinguished
error `Err.panicked`.  The zlib inflate step is abstracted as a total oracle
`inflate : List Nat → List Nat` giving the byte sequence the decoder yields
before it stops or fails; `read_exact` on the decoder succeeds iff the
oracle yields at least the requested number of bytes.
-/

/-- Errors of the parser: the four `ModuleError` variants of `loader.rs`,
generic I/O failures (short read / decompression), UTF-8 validation failure
from `read_cstring`, and a Rust panic (`unwrap` or slice index out of
bounds). -/
inductive Err where
  | invalidMagic (found : List Char)
  | invalidVersion (found : Nat)
  | emptyTag
  | nonCompressedSingleTag
  | ioShortRead
  | inflateFail
  | invalidUtf8
  | panicked
  deriving DecidableEq, Repr

/-- Result of a reader action: value or error, together with the stream
position after the action. -/
inductive Res (α : Type) where
  | ok (a : α) (pos : Nat)
  | err (e : Err) (pos : Nat)
  deriving DecidableEq, Repr

/-- Reader monad: a function from the current stream position to a result.
The underlying byte data is passed to each primitive explicitly. -/
def RM (α : Type) : Type := Nat → Res α

def RM.pure (a : α) : RM α := fun pos => .ok a pos

def RM.bind (x : RM α) (f : α → RM β) : RM β := fun pos =>
  match x pos with
  | .ok a pos' => f a pos'
  | .err e pos' => .err e pos'

instance : Monad RM where
  pure := RM.pure
  bind := RM.bind

/-- `bail!`: fail with a module error at the current position. -/
def RM.throw (e : Err) : RM α := fun pos => .err e pos

/-- `reader.seek(SeekFrom::Start(target))`: always succeeds, also past the
end of the stream. -/
def RM.seek (target : Nat) : RM Unit := fun _ => .ok () target

/-- `reader.stream_position()`. -/
def RM.streamPosition : RM Nat := fun pos => .ok pos pos

/-- Models `.unwrap()` on a `Result`: a panic replaces the error value. -/
def RM.unwrapped (x : RM α) : RM α := fun pos =>
  match x pos with
  | .ok a pos' => .ok a pos'
  | .err _ pos' => .err .panicked pos'

@[simp] theorem RM.bind_apply (x : RM α) (f : α → RM β) (pos : Nat) :
    (x >>= f) pos =
      match x pos with
      | .ok a pos' => f a pos'
      | .err e pos' => .err e pos' := rfl

@[simp] theorem RM.pure_apply (a : α) (pos : Nat) :
    (Pure.pure a : RM α) pos = .ok a pos := rfl

/-- `read_exact` into a buffer of `n` bytes: succeeds iff `n` bytes remain,
consuming them; on failure the reader has consumed everything up to the end
of the stream. -/
def readExact (data : List Nat) (n : Nat) : RM (List Nat) := fun pos =>
  if pos + n ≤ data.length then .ok ((data.drop pos).take n) (pos + n)
  else .err .ioShortRead (max pos data.length)

/-- Little-endian value of a byte list (first byte least significant). -/
def leVal (l : List Nat) : Nat := l.foldr (fun b acc => b + 256 * acc) 0

/-- Reinterpret an unsigned `w`-bit value as a signed one (two's
complement). -/
def toSigned (w : Nat) (v : Nat) : Int :=
  if v < 2 ^ (w - 1) then (v : Int) else (v : Int) - 2 ^ w

def readU8 (data : List Nat) : RM Nat := do
  let bs ← readExact data 1
  pure (leVal bs)

def readU32 (data : List Nat) : RM Nat := do
  let bs ← readExact data 4
  pure (leVal bs)

def readU64 (data : List Nat) : RM Nat := do
  let bs ← readExact data 8
  pure (leVal bs)

def readI16 (data : List Nat) : RM Int := do
  let bs ← readExact data 2
  pure (toSigned 16 (leVal bs))

def readI32 (data : List Nat) : RM Int := do
  let bs ← readExact data 4
  pure (toSigned 32 (leVal bs))

def readI64 (data : List Nat) : RM Int := do
  let bs ← readExact data 8
  pure (toSigned 64 (leVal bs))

/-- The Unicode replacement character U+FFFD emitted by lossy decoding. -/
def replChar : Char := Char.ofNat 65533

/-- Is a byte a UTF-8 continuation byte (`0x80..=0xBF`)? -/
def isCont (b : Nat) : Bool := 128 ≤ b && b < 192

/-- Valid second byte of a three-byte sequence led by `b`
(`E0 → A0..BF`, `ED → 80..9F`, otherwise `80..BF`). -/
def isCont2 (b b1 : Nat) : Bool :=
  if b = 224 then 160 ≤ b1 && b1 < 192
  else if b = 237 then 128 ≤ b1 && b1 < 160
  else isCont b1

/-- Valid second byte of a four-byte sequence led by `b`
(`F0 → 90..BF`, `F4 → 80..8F`, otherwise `80..BF`). -/
def isCont3 (b b1 : Nat) : Bool :=
  if b = 240 then 144 ≤ b1 && b1 < 192
  else if b = 244 then 128 ≤ b1 && b1 < 144
  else isCont b1

/-- Lossy UTF-8 decoding as performed by `String::from_utf8_lossy`: valid
sequences decode to their scalar value, each maximal prefix of a valid
sequence that cannot be completed is replaced by U+FFFD. -/
def utf8DecodeLossy : List Nat → List Char
  | [] => []
  | b :: r =>
    if b < 128 then Char.ofNat b :: utf8DecodeLossy r
    else if b < 194 then replChar :: utf8DecodeLossy r
    else if b < 224 then
      match r with
      | [] => [replChar]
      | b1 :: r1 =>
        if isCont b1 then
          Char.ofNat ((b - 192) * 64 + (b1 - 128)) :: utf8DecodeLossy r1
        else replChar :: utf8DecodeLossy (b1 :: r1)
    else if b < 240 then
      match r with
      | [] => [replChar]
      | b1 :: r1 =>
        if isCont2 b b1 then
          match r1 with
          | [] => [replChar]
          | b2 :: r2 =>
            if isCont b2 then
              Char.ofNat ((b - 224) * 4096 + (b1 - 128) * 64 + (b2 - 128)) ::
                utf8DecodeLossy r2
            else replChar :: utf8DecodeLossy (b2 :: r2)
        else replChar :: utf8DecodeLossy (b1 :: r1)
    else if b < 245 then
      match r with
      | [] => [replChar]
      | b1 :: r1 =>
        if isCont3 b b1 then
          match r1 with
          | [] => [replChar]
          | b2 :: r2 =>
            if isCont b2 then
              match r2 with
              | [] => [replChar]
              | b3 :: r3 =>
                if isCont b3 then
                  Char.ofNat ((b - 240) * 262144 + (b1 - 128) * 4096 +
                      (b2 - 128) * 64 + (b3 - 128)) :: utf8DecodeLossy r3
                else replChar :: utf8DecodeLossy (b3 :: r3)
            else replChar :: utf8DecodeLossy (b2 :: r2)
        else replChar :: utf8DecodeLossy (b1 :: r1)
    else replChar :: utf8DecodeLossy r

/-- Strict UTF-8 decoding as performed by `String::from_utf8`: `none` on any
invalid sequence. -/
def utf8Decode : List Nat → Option (List Char)
  | [] => some []
  | b :: r =>
    if b < 128 then (utf8Decode r).map (Char.ofNat b :: ·)
    else if b < 194 then none
    else if b < 224 then
      match r with
      | [] => none
      | b1 :: r1 =>
        if isCont b1 then
          (utf8Decode r1).map (Char.ofNat ((b - 192) * 64 + (b1 - 128)) :: ·)
        else none
    else if b < 240 then
      match r with
      | [] => none
      | b1 :: r1 =>
        if isCont2 b b1 then
          match r1 with
          | [] => none
          | b2 :: r2 =>
            if isCont b2 then
              (utf8Decode r2).map
                (Char.ofNat ((b - 224) * 4096 + (b1 - 128) * 64 + (b2 - 128)) :: ·)
            else none
        else none
    else if b < 245 then
      match r with
      | [] => none
      | b1 :: r1 =>
        if isCont3 b b1 then
          match r1 with
          | [] => none
          | b2 :: r2 =>
            if isCont b2 then
              match r2 with
              | [] => none
              | b3 :: r3 =>
                if isCont b3 then
                  (utf8Decode r3).map
                    (Char.ofNat ((b - 240) * 262144 + (b1 - 128) * 4096 +
                        (b2 - 128) * 64 + (b3 - 128)) :: ·)
                else none
            else none
        else none
    else none

/-- `str::trim_end_matches('\0')`: remove all trailing NUL characters. -/
def trimEndNulls (l : List Char) : List Char :=
  (l.reverse.dropWhile (fun c => c == Char.ofNat 0)).reverse

/-- `BufReaderExt::read_fixed_string`: read exactly `n` bytes, decode them
lossily and trim trailing NULs. -/
def readFixedString (data : List Nat) (n : Nat) : RM (List Char) := do
  let bs ← readExact data n
  pure (trimEndNulls (utf8DecodeLossy bs))

/-- `BufReaderExt::read_cstring`: `read_until 0` (consuming the terminator
when present, everything to the end of the stream otherwise), drop the
terminator, then strict UTF-8 validation. -/
def readCString (data : List Nat) : RM (List Char) := fun pos =>
  let rest := data.drop pos
  let pre := rest.takeWhile (fun b => b != 0)
  let consumed := pre.length + (if pre.length < rest.length then 1 else 0)
  match utf8Decode pre with
  | some cs => .ok cs (pos + consumed)
  | none => .err .invalidUtf8 (pos + consumed)

/-- `ModuleHeader` (all integer fields; `magic` is the decoded string). -/
structure ModuleHeader where
  magic : List Char := []
  version : Nat := 0
  module_id : Nat := 0
  item_count : Nat := 0
  manifest_count : Nat := 0
  resource_index : Int := 0
  strings_size : Nat := 0
  resource_count : Nat := 0
  block_count : Nat := 0
  build_version : Nat := 0
  checksum : Nat := 0
  deriving DecidableEq, Repr

/-- `ModuleHeader::read`. -/
def ModuleHeader.read (data : List Nat) : RM ModuleHeader := do
  let magic ← readFixedString data 4
  if magic ≠ String.toList "mohd" then RM.throw (Err.invalidMagic magic) else do
  let version ← readU32 data
  if version ≠ 27 ∧ version ≠ 23 then RM.throw (Err.invalidVersion version) else do
  let module_id ← readU64 data
  let item_count ← readU32 data
  let manifest_count ← readU32 data
  let resource_index ← readI32 data
  let strings_size ← readU32 data
  let resource_count ← readU32 data
  let block_count ← readU32 data
  let build_version ← readU64 data
  let checksum ← if version = 27 then readU64 data else RM.pure 0
  RM.pure { magic, version, module_id, item_count, manifest_count,
            resource_index, strings_size, resource_count, block_count,
            build_version, checksum }

/-- The `FileFlags` bit set (`COMPRESSED = 1 << 0`, `HAS_BLOCKS = 1 << 1`,
`RAW_FILE = 1 << 2`). -/
structure FileFlags where
  compressed : Bool := false
  hasBlocks : Bool := false
  rawFile : Bool := false
  deriving DecidableEq, Repr

/-- `FileFlags::from_bits_truncate` on the flag byte. -/
def FileFlags.fromBitsTruncate (b : Nat) : FileFlags :=
  { compressed := b.testBit 0, hasBlocks := b.testBit 1, rawFile := b.testBit 2 }

/-- `ModuleFileEntry`; `name` and `data` are filled in by later passes. -/
structure ModuleFileEntry where
  name_offset : Nat := 0
  parent_file_index : Int := 0
  resource_count : Nat := 0
  first_resource_index : Int := 0
  block_count : Nat := 0
  first_block_index : Int := 0
  data_offset : Nat := 0
  total_compressed_size : Nat := 0
  total_uncompressed_size : Nat := 0
  header_alignment : Nat := 0
  tag_alignment : Nat := 0
  resource_alignment : Nat := 0
  flags : FileFlags := {}
  global_tag_id : Int := 0
  asset_id : Int := 0
  asset_checksum : Int := 0
  group_tag : List Char := []
  uncompressed_header_size : Nat := 0
  uncompressed_tag_size : Nat := 0
  uncompressed_resource_size : Nat := 0
  header_block_count : Int := 0
  tag_block_count : Int := 0
  resource_block_count : Int := 0
  padding : Int := 0
  name : List Char := []
  data : List Nat := []
  deriving DecidableEq, Repr

/-- `ModuleFileEntry::read`. -/
def ModuleFileEntry.read (data : List Nat) : RM ModuleFileEntry := do
  let name_offset ← readU32 data
  let parent_file_index ← readI32 data
  let resource_count ← readU32 data
  let first_resource_index ← readI32 data
  let block_count ← readU32 data
  let first_block_index ← readI32 data
  let data_offset ← readU64 data
  let total_compressed_size ← readU32 data
  let total_uncompressed_size ← readU32 data
  let header_alignment ← readU8 data
  let tag_alignment ← readU8 data
  let resource_alignment ← readU8 data
  let flagsByte ← readU8 data
  let global_tag_id ← readI32 data
  let asset_id ← readI64 data
  let asset_checksum ← readI64 data
  let group_tagRaw ← readFixedString data 4
  let uncompressed_header_size ← readU32 data
  let uncompressed_tag_size ← readU32 data
  let uncompressed_resource_size ← readU32 data
  let header_block_count ← readI16 data
  let tag_block_count ← readI16 data
  let resource_block_count ← readI16 data
  let padding ← readI16 data
  RM.pure { name_offset, parent_file_index, resource_count,
            first_resource_index, block_count, first_block_index,
            data_offset, total_compressed_size, total_uncompressed_size,
            header_alignment, tag_alignment, resource_alignment,
            flags := FileFlags.fromBitsTruncate flagsByte,
            global_tag_id, asset_id, asset_checksum,
            group_tag := group_tagRaw.reverse,
            uncompressed_header_size, uncompressed_tag_size,
            uncompressed_resource_size, header_block_count, tag_block_count,
            resource_block_count, padding }

/-- `ModuleFileEntry::read_name`: seek to `file_name_offset + name_offset`
(32-bit addition of two `u32` values, wrapping) and read a C string there. -/
def ModuleFileEntry.read_name (data : List Nat) (e : ModuleFileEntry)
    (file_name_offset : Nat) : RM ModuleFileEntry := do
  RM.seek ((file_name_offset + e.name_offset) % 4294967296)
  let n ← readCString data
  RM.pure { e with name := n }

/-- `ModuleBlock`. -/
structure ModuleBlock where
  checksum : Nat := 0
  compressed_offset : Nat := 0
  compressed_size : Nat := 0
  uncompressed_offset : Nat := 0
  uncompressed_size : Nat := 0
  compressed : Bool := false
  padding : Int := 0
  deriving DecidableEq, Repr

/-- `ModuleBlock::read`: the leading checksum and trailing padding are read
only when `is_forge` holds; `compressed` is a `u32` interpreted as `≠ 0`. -/
def ModuleBlock.read (data : List Nat) (is_forge : Bool) : RM ModuleBlock := do
  let checksum ← if is_forge then readU64 data else RM.pure 0
  let compressed_offset ← readU32 data
  let compressed_size ← readU32 data
  let uncompressed_offset ← readU32 data
  let uncompressed_size ← readU32 data
  let compressedFlag ← readU32 data
  let padding ← if is_forge then readI32 data else RM.pure 0
  RM.pure { checksum, compressed_offset, compressed_size,
            uncompressed_offset, uncompressed_size,
            compressed := compressedFlag != 0, padding }

/-- `H5Module`. -/
structure H5Module where
  header : ModuleHeader := {}
  files : List ModuleFileEntry := []
  resource_indices : List Int := []
  blocks : List ModuleBlock := []
  data_offset : Nat := 0
  deriving DecidableEq, Repr

/-- The file-entry loop of `H5Module::read`: each entry read is
`.unwrap()`ed, so a failure panics instead of propagating. -/
def readEntries (data : List Nat) : Nat → RM (List ModuleFileEntry)
  | 0 => RM.pure []
  | n + 1 => do
    let e ← RM.unwrapped (ModuleFileEntry.read data)
    let rest ← readEntries data n
    RM.pure (e :: rest)

/-- The name-resolution loop of `H5Module::read`: sequential, errors
propagate. -/
def readNames (data : List Nat) (file_name_offset : Nat) :
    List ModuleFileEntry → RM (List ModuleFileEntry)
  | [] => RM.pure []
  | e :: rest => do
    let e' ← ModuleFileEntry.read_name data e file_name_offset
    let rest' ← readNames data file_name_offset rest
    RM.pure (e' :: rest')

/-- The resource-index loop of `H5Module::read`: each `read_i32` is
`.unwrap()`ed. -/
def readResourceIndices (data : List Nat) : Nat → RM (List Int)
  | 0 => RM.pure []
  | n + 1 => do
    let i ← RM.unwrapped (readI32 data)
    let rest ← readResourceIndices data n
    RM.pure (i :: rest)

/-- The block-table loop of `H5Module::read`: each block read is
`.unwrap()`ed. -/
def readBlocks (data : List Nat) (is_forge : Bool) : Nat → RM (List ModuleBlock)
  | 0 => RM.pure []
  | n + 1 => do
    let b ← RM.unwrapped (ModuleBlock.read data is_forge)
    let rest ← readBlocks data is_forge n
    RM.pure (b :: rest)

/-- `i as usize` for a 64-bit-or-narrower signed value `i` (sign extension
then reinterpretation). -/
def usizeOfInt (i : Int) : Nat := (i % (2 : Int) ^ 64).toNat

/-- Wrapping (release-mode) `i32` addition result normalisation. -/
def wrapI32 (i : Int) : Int := (i + 2 ^ 31) % 2 ^ 32 - 2 ^ 31

/-- `block_count as i32` (bit reinterpretation of a `u32`). -/
def i32OfU32 (v : Nat) : Int := toSigned 32 v

/-- Overwrite `buf[i .. i + xs.length)` with `xs`. -/
def writeRange (buf : List Nat) (i : Nat) (xs : List Nat) : List Nat :=
  buf.take i ++ xs ++ buf.drop (i + xs.length)

/-- One iteration of the block loop in `H5Module::read_tag`: seek to
`block_offset + block.compressed_offset`, `read_exact` the compressed
bytes, inflate them (or check the length and copy for a raw block), and
write the result into the destination range of the output buffer.  Length
mismatch of a raw block and an out-of-range destination are panics
(`copy_from_slice` / slice indexing). -/
def processBlock (inflate : List Nat → List Nat) (data : List Nat)
    (block_offset : Nat) (buf : List Nat) (b : ModuleBlock) : RM (List Nat) :=
  fun _ =>
    let offset := (block_offset + b.compressed_offset) % 18446744073709551616
    match readExact data b.compressed_size offset with
    | .err e pos' => .err e pos'
    | .ok bb pos' =>
      let write := fun (out : List Nat) =>
        if b.uncompressed_offset + b.uncompressed_size ≤ buf.length then
          Res.ok (writeRange buf b.uncompressed_offset out) pos'
        else Res.err .panicked pos'
      if b.compressed then
        if b.uncompressed_size ≤ (inflate bb).length then
          write ((inflate bb).take b.uncompressed_size)
        else .err .inflateFail pos'
      else
        if bb.length = b.uncompressed_size then write bb
        else .err .panicked pos'

/-- The block loop of `H5Module::read_tag`, processing the selected blocks
in order. -/
def processBlocks (inflate : List Nat → List Nat) (data : List Nat)
    (block_offset : Nat) : List ModuleBlock → List Nat → RM (List Nat)
  | [], buf => RM.pure buf
  | b :: rest, buf => do
    let buf' ← processBlock inflate data block_offset buf b
    processBlocks inflate data block_offset rest buf'

/-- `H5Module::read_tag`: reconstruct the data of file entry `index`.
`self.files[index]` and the block-slice indexing panic when out of bounds;
`block_offset` is the wrapping `u64` sum `file.data_offset +
self.data_offset`. -/
def H5Module.read_tag (inflate : List Nat → List Nat) (data : List Nat)
    (m : H5Module) (index : Nat) : RM H5Module := fun pos =>
  match m.files[index]? with
  | none => .err .panicked pos
  | some file =>
    if file.total_uncompressed_size = 0 then .err .emptyTag pos
    else
      let block_offset :=
        (file.data_offset + m.data_offset) % 18446744073709551616
      if file.flags.hasBlocks then
        let start := usizeOfInt file.first_block_index
        let stop :=
          usizeOfInt (wrapI32 (file.first_block_index + i32OfU32 file.block_count))
        if start ≤ stop ∧ stop ≤ m.blocks.length then
          let blocks := (m.blocks.drop start).take (stop - start)
          match processBlocks inflate data block_offset blocks
              (List.replicate file.total_uncompressed_size 0) pos with
          | .ok dataBuffer pos' =>
            .ok { m with files :=
                    m.files.set index ({ file with data := dataBuffer }) } pos'
          | .err e pos' => .err e pos'
        else .err .panicked pos
      else
        match readExact data file.total_compressed_size block_offset with
        | .err e pos' => .err e pos'
        | .ok fileBuffer pos' =>
          if file.flags.compressed then
            if file.total_uncompressed_size ≤ (inflate fileBuffer).length then
              let newData := (inflate fileBuffer).take file.total_uncompressed_size
              .ok { m with
                    files := m.files.set index ({ file with data := newData }) } pos'
            else .err .inflateFail pos'
          else .err .nonCompressedSingleTag pos'

/-- The per-entry reconstruction loop of `H5Module::read` (`for id in
0..self.files.len() { self.read_tag(id, reader)? }`). -/
def H5Module.readTags (inflate : List Nat → List Nat) (data : List Nat) :
    H5Module → Nat → Nat → RM H5Module
  | m, _, 0 => RM.pure m
  | m, i, n + 1 => do
    let m' ← m.read_tag inflate data i
    H5Module.readTags inflate data m' (i + 1) n

/-- `H5Module::read`: the full parse in phase order — header, file-entry
table, name resolution (from the position recorded after the entries,
truncated to `u32`), resource indices, block table, record the data-region
base, then reconstruct every tag. -/
def H5Module.read (inflate : List Nat → List Nat) (data : List Nat) :
    RM H5Module := do
  let header ← ModuleHeader.read data
  let files ← readEntries data header.item_count
  let name_offset ← RM.streamPosition
  let files ← readNames data (name_offset % 4294967296) files
  let resource_indices ← readResourceIndices data header.resource_count
  let blocks ← readBlocks data (header.version == 27) header.block_count
  let data_offset ← RM.streamPosition
  let m : H5Module := { header, files, resource_indices, blocks, data_offset }
  H5Module.readTags inflate data m 0 m.files.length

/-- Little-endian value of the `n`-byte slice of `data` starting at `pos`. -/
def sliceLE (data : List Nat) (pos n : Nat) : Nat :=
  leVal ((data.drop pos).take n)

theorem readExact_eq (data : List Nat) (n pos : Nat) :
    readExact data n pos =
      if pos + n ≤ data.length then .ok ((data.drop pos).take n) (pos + n)
      else .err .ioShortRead (max pos data.length) := rfl

theorem readU8_eq (data : List Nat) (pos : Nat) :
    readU8 data pos =
      if pos + 1 ≤ data.length then .ok (sliceLE data pos 1) (pos + 1)
      else .err .ioShortRead (max pos data.length) := by
  by_cases h : pos + 1 ≤ data.length <;>
    simp [readU8, readExact, h, sliceLE, RM.bind_apply]

theorem readU32_eq (data : List Nat) (pos : Nat) :
    readU32 data pos =
      if pos + 4 ≤ data.length then .ok (sliceLE data pos 4) (pos + 4)
      else .err .ioShortRead (max pos data.length) := by
  by_cases h : pos + 4 ≤ data.length <;>
    simp [readU32, readExact, h, sliceLE, RM.bind_apply]

theorem readU64_eq (data : List Nat) (pos : Nat) :
    readU64 data pos =
      if pos + 8 ≤ data.length then .ok (sliceLE data pos 8) (pos + 8)
      else .err .ioShortRead (max pos data.length) := by
  by_cases h : pos + 8 ≤ data.length <;>
    simp [readU64, readExact, h, sliceLE, RM.bind_apply]

theorem readI16_eq (data : List Nat) (pos : Nat) :
    readI16 data pos =
      if pos + 2 ≤ data.length then .ok (toSigned 16 (sliceLE data pos 2)) (pos + 2)
      else .err .ioShortRead (max pos data.length) := by
  by_cases h : pos + 2 ≤ data.length <;>
    simp [readI16, readExact, h, sliceLE, RM.bind_apply]

theorem readI32_eq (data : List Nat) (pos : Nat) :
    readI32 data pos =
      if pos + 4 ≤ data.length then .ok (toSigned 32 (sliceLE data pos 4)) (pos + 4)
      else .err .ioShortRead (max pos data.length) := by
  by_cases h : pos + 4 ≤ data.length <;>
    simp [readI32, readExact, h, sliceLE, RM.bind_apply]

theorem readI64_eq (data : List Nat) (pos : Nat) :
    readI64 data pos =
      if pos + 8 ≤ data.length then .ok (toSigned 64 (sliceLE data pos 8)) (pos + 8)
      else .err .ioShortRead (max pos data.length) := by
  by_cases h : pos + 8 ≤ data.length <;>
    simp [readI64, readExact, h, sliceLE, RM.bind_apply]

theorem readFixedString_eq (data : List Nat) (n pos : Nat) :
    readFixedString data n pos =
      if pos + n ≤ data.length then
        .ok (trimEndNulls (utf8DecodeLossy ((data.drop pos).take n))) (pos + n)
      else .err .ioShortRead (max pos data.length) := by
  by_cases h : pos + n ≤ data.length <;>
    simp [readFixedString, readExact, h, RM.bind_apply]

theorem RM.pure_def (a : α) (pos : Nat) : RM.pure a pos = .ok a pos := rfl

theorem RM.throw_def (e : Err) (pos : Nat) : (RM.throw e : RM α) pos = .err e pos := rfl

theorem RM.ite_apply (c : Prop) [Decidable c] (x y : RM α) (pos : Nat) :
    (if c then x else y) pos = if c then x pos else y pos := by
  by_cases h : c <;> simp [h]

theorem RM.bind_ok {x : RM α} {f : α → RM β} {pos : Nat} {a : α} {pos₁ : Nat}
    (h : x pos = .ok a pos₁) : (x >>= f) pos = f a pos₁ := by
  simp [RM.bind_apply, h]

theorem RM.bind_err {x : RM α} {f : α → RM β} {pos : Nat} {e : Err} {pos₁ : Nat}
    (h : x pos = .err e pos₁) : (x >>= f) pos = .err e pos₁ := by
  simp [RM.bind_apply, h]

theorem RM.bind_ok_inv {x : RM α} {f : α → RM β} {pos : Nat} {b : β} {pos₂ : Nat}
    (h : (x >>= f) pos = .ok b pos₂) :
    ∃ a pos₁, x pos = .ok a pos₁ ∧ f a pos₁ = .ok b pos₂ := by
  rw [RM.bind_apply] at h
  cases hx : x pos with
  | ok a pos₁ => rw [hx] at h; exact ⟨a, pos₁, rfl, h⟩
  | err e pos₁ => rw [hx] at h; exact absurd h (by simp)

theorem RM.unwrapped_ok {x : RM α} {pos : Nat} {a : α} {pos₁ : Nat}
    (h : x pos = .ok a pos₁) : RM.unwrapped x pos = .ok a pos₁ := by
  simp [RM.unwrapped, h]

theorem RM.unwrapped_err {x : RM α} {pos : Nat} {e : Err} {pos₁ : Nat}
    (h : x pos = .err e pos₁) : RM.unwrapped x pos = .err .panicked pos₁ := by
  simp [RM.unwrapped, h]

theorem RM.unwrapped_ok_inv {x : RM α} {pos : Nat} {a : α} {pos₁ : Nat}
    (h : RM.unwrapped x pos = .ok a pos₁) : x pos = .ok a pos₁ := by
  rw [RM.unwrapped] at h
  cases hx : x pos with
  | ok b p => rw [hx] at h; simpa using h
  | err e p => rw [hx] at h; exact absurd h (by simp)

theorem readExact_ok_inv {data : List Nat} {n pos : Nat} {v : List Nat} {p : Nat}
    (h : readExact data n pos = .ok v p) :
    v = (data.drop pos).take n ∧ p = pos + n ∧ pos + n ≤ data.length := by
  rw [readExact_eq] at h
  split at h
  · simp only [Res.ok.injEq] at h
    exact ⟨h.1.symm, h.2.symm, by omega⟩
  · exact absurd h (by simp)

theorem readU8_ok_inv {data : List Nat} {pos : Nat} {v p : Nat}
    (h : readU8 data pos = .ok v p) :
    v = sliceLE data pos 1 ∧ p = pos + 1 ∧ pos + 1 ≤ data.length := by
  rw [readU8_eq] at h
  split at h
  · simp only [Res.ok.injEq] at h; exact ⟨h.1.symm, h.2.symm, by omega⟩
  · exact absurd h (by simp)

theorem readU32_ok_inv {data : List Nat} {pos : Nat} {v p : Nat}
    (h : readU32 data pos = .ok v p) :
    v = sliceLE data pos 4 ∧ p = pos + 4 ∧ pos + 4 ≤ data.length := by
  rw [readU32_eq] at h
  split at h
  · simp only [Res.ok.injEq] at h; exact ⟨h.1.symm, h.2.symm, by omega⟩
  · exact absurd h (by simp)

theorem readU64_ok_inv {data : List Nat} {pos : Nat} {v p : Nat}
    (h : readU64 data pos = .ok v p) :
    v = sliceLE data pos 8 ∧ p = pos + 8 ∧ pos + 8 ≤ data.length := by
  rw [readU64_eq] at h
  split at h
  · simp only [Res.ok.injEq] at h; exact ⟨h.1.symm, h.2.symm, by omega⟩
  · exact absurd h (by simp)

theorem readI16_ok_inv {data : List Nat} {pos : Nat} {v : Int} {p : Nat}
    (h : readI16 data pos = .ok v p) :
    v = toSigned 16 (sliceLE data pos 2) ∧ p = pos + 2 ∧ pos + 2 ≤ data.length := by
  rw [readI16_eq] at h
  split at h
  · simp only [Res.ok.injEq] at h; exact ⟨h.1.symm, h.2.symm, by omega⟩
  · exact absurd h (by simp)

theorem readI32_ok_inv {data : List Nat} {pos : Nat} {v : Int} {p : Nat}
    (h : readI32 data pos = .ok v p) :
    v = toSigned 32 (sliceLE data pos 4) ∧ p = pos + 4 ∧ pos + 4 ≤ data.length := by
  rw [readI32_eq] at h
  split at h
  · simp only [Res.ok.injEq] at h; exact ⟨h.1.symm, h.2.symm, by omega⟩
  · exact absurd h (by simp)

theorem readI64_ok_inv {data : List Nat} {pos : Nat} {v : Int} {p : Nat}
    (h : readI64 data pos = .ok v p) :
    v = toSigned 64 (sliceLE data pos 8) ∧ p = pos + 8 ∧ pos + 8 ≤ data.length := by
  rw [readI64_eq] at h
  split at h
  · simp only [Res.ok.injEq] at h; exact ⟨h.1.symm, h.2.symm, by omega⟩
  · exact absurd h (by simp)

theorem readFixedString_ok_inv {data : List Nat} {n pos : Nat} {v : List Char} {p : Nat}
    (h : readFixedString data n pos = .ok v p) :
    v = trimEndNulls (utf8DecodeLossy ((data.drop pos).take n)) ∧
      p = pos + n ∧ pos + n ≤ data.length := by
  rw [readFixedString_eq] at h
  split at h
  · simp only [Res.ok.injEq] at h; exact ⟨h.1.symm, h.2.symm, by omega⟩
  · exact absurd h (by simp)

/-- Test inflate oracle: every compressed stream inflates to `[5, 6, 7]`. -/
def inflate0 : List Nat → List Nat := fun _ => [5, 6, 7]

/-- A 48-byte version-23 header: magic `mohd`, one item, no resources, no
blocks. -/
def hdrBytes : List Nat :=
  [109, 111, 104, 100] ++ [23, 0, 0, 0] ++ List.replicate 8 0 ++ [1, 0, 0, 0] ++
    [0, 0, 0, 0] ++ [0, 0, 0, 0] ++ [0, 0, 0, 0] ++ [0, 0, 0, 0] ++
    [0, 0, 0, 0] ++ List.replicate 8 0

/-- An 88-byte file entry: single compressed tag (`flags = COMPRESSED`),
`total_compressed_size = 2`, `total_uncompressed_size = 3`, group tag
`bitm`. -/
def entryBytes : List Nat :=
  [0, 0, 0, 0] ++ [0, 0, 0, 0] ++ [0, 0, 0, 0] ++ [0, 0, 0, 0] ++ [0, 0, 0, 0] ++
    [0, 0, 0, 0] ++ List.replicate 8 0 ++ [2, 0, 0, 0] ++ [3, 0, 0, 0] ++
    [0, 0, 0] ++ [1] ++ [0, 0, 0, 0] ++ List.replicate 8 0 ++
    List.replicate 8 0 ++ [98, 105, 116, 109] ++ List.replicate 12 0 ++
    List.replicate 8 0

/-- A complete 140-byte module: header, one entry, name table `"a\0"`, and a
2-byte compressed data region. -/
def mod0 : List Nat := hdrBytes ++ entryBytes ++ [97, 0] ++ [10, 20]

/-- C2: a file entry whose `total_uncompressed_size` is zero makes
`read_tag` fail with the empty-tag error, leaving the stream position
unchanged and independent of the stream contents — the failure happens
before any seek or read of that entry's data. -/
theorem read_tag_empty_tag (inflate : List Nat → List Nat) (data : List Nat)
    (m : H5Module) (index pos : Nat) (file : ModuleFileEntry)
    (hf : m.files[index]? = some file)
    (h0 : file.total_uncompressed_size = 0) :
    H5Module.read_tag inflate data m index pos = .err .emptyTag pos := by
  simp only [H5Module.read_tag, hf, h0]
  simp

/-- Witness for C2: the default entry has size zero; `read_tag` fails with
the empty-tag error at the incoming position 5 on an arbitrary 3-byte
stream. -/
theorem read_tag_empty_tag_witness :
    H5Module.read_tag (fun _ => []) [1, 2, 3] { files := [{}] } 0 5 =
      .err .emptyTag 5 :=
  read_tag_empty_tag (fun _ => []) [1, 2, 3] { files := [{}] } 0 5 {} rfl rfl

/-- C9: module parsing is deterministic — over equal byte sources and start
positions the full parse yields structurally identical results (the parse
is a pure function of the stream). -/
theorem read_deterministic (inflate : List Nat → List Nat)
    (data₁ data₂ : List Nat) (pos₁ pos₂ : Nat)
    (hdata : data₁ = data₂) (hpos : pos₁ = pos₂) :
    H5Module.read inflate data₁ pos₁ = H5Module.read inflate data₂ pos₂ := by
  subst hdata; subst hpos; rfl

/-- Witness for C9: two runs over the concrete module `mod0` agree. -/
theorem read_deterministic_witness :
    H5Module.read inflate0 mod0 0 = H5Module.read inflate0 mod0 0 :=
  read_deterministic inflate0 mod0 mod0 0 0 rfl rfl

/-- C6: decoding one block record with the forge flag `version == 27` reads
the leading 8-byte checksum and trailing 4-byte padding exactly when the
version is 27 (consuming 32 bytes instead of 20, with checksum/padding left
at their defaults otherwise), and the decoded `compressed` boolean is true
exactly when the stored 4-byte integer is nonzero. -/
theorem block_read_characterization (version : Nat) (data : List Nat)
    (pos : Nat) (b : ModuleBlock) (p' : Nat)
    (hok : ModuleBlock.read data (version == 27) pos = .ok b p') :
    (version = 27 → p' = pos + 32 ∧ b.checksum = sliceLE data pos 8 ∧
        b.padding = toSigned 32 (sliceLE data (pos + 28) 4) ∧
        (b.compressed = true ↔ sliceLE data (pos + 24) 4 ≠ 0)) ∧
    (version ≠ 27 → p' = pos + 20 ∧ b.checksum = 0 ∧ b.padding = 0 ∧
        (b.compressed = true ↔ sliceLE data (pos + 16) 4 ≠ 0)) := by
  by_cases hv : version = 27
  · subst hv
    simp only [ModuleBlock.read, beq_self_eq_true, if_true] at hok
    obtain ⟨cks, p1, h1, hok⟩ := RM.bind_ok_inv hok
    obtain ⟨co, p2, h2, hok⟩ := RM.bind_ok_inv hok
    obtain ⟨cs, p3, h3, hok⟩ := RM.bind_ok_inv hok
    obtain ⟨uo, p4, h4, hok⟩ := RM.bind_ok_inv hok
    obtain ⟨us, p5, h5, hok⟩ := RM.bind_ok_inv hok
    obtain ⟨fl, p6, h6, hok⟩ := RM.bind_ok_inv hok
    obtain ⟨pd, p7, h7, hok⟩ := RM.bind_ok_inv hok
    obtain ⟨hv1, hp1, -⟩ := readU64_ok_inv h1
    obtain ⟨hv2, hp2, -⟩ := readU32_ok_inv h2
    obtain ⟨hv3, hp3, -⟩ := readU32_ok_inv h3
    obtain ⟨hv4, hp4, -⟩ := readU32_ok_inv h4
    obtain ⟨hv5, hp5, -⟩ := readU32_ok_inv h5
    obtain ⟨hv6, hp6, -⟩ := readU32_ok_inv h6
    obtain ⟨hv7, hp7, -⟩ := readI32_ok_inv h7
    rw [RM.pure_def] at hok
    simp only [Res.ok.injEq] at hok
    obtain ⟨hb, hp⟩ := hok
    subst hb
    subst hp1; subst hp2; subst hp3; subst hp4; subst hp5; subst hp6; subst hp7
    subst hv1; subst hv2; subst hv3; subst hv4; subst hv5; subst hv6; subst hv7
    constructor
    · intro _
      refine ⟨by omega, ?_, ?_, ?_⟩ <;> simp [Nat.add_assoc, bne_iff_ne]
    · intro h; exact absurd rfl h
  · have hb27 : (version == 27) = false := by simp [hv]
    rw [hb27] at hok
    simp only [ModuleBlock.read, Bool.false_eq_true, if_false] at hok
    obtain ⟨cks, p1, h1, hok⟩ := RM.bind_ok_inv hok
    obtain ⟨co, p2, h2, hok⟩ := RM.bind_ok_inv hok
    obtain ⟨cs, p3, h3, hok⟩ := RM.bind_ok_inv hok
    obtain ⟨uo, p4, h4, hok⟩ := RM.bind_ok_inv hok
    obtain ⟨us, p5, h5, hok⟩ := RM.bind_ok_inv hok
    obtain ⟨fl, p6, h6, hok⟩ := RM.bind_ok_inv hok
    obtain ⟨pd, p7, h7, hok⟩ := RM.bind_ok_inv hok
    rw [RM.pure_def] at h1
    simp only [Res.ok.injEq] at h1
    obtain ⟨hv1, hp1⟩ := h1
    obtain ⟨hv2, hp2, -⟩ := readU32_ok_inv h2
    obtain ⟨hv3, hp3, -⟩ := readU32_ok_inv h3
    obtain ⟨hv4, hp4, -⟩ := readU32_ok_inv h4
    obtain ⟨hv5, hp5, -⟩ := readU32_ok_inv h5
    obtain ⟨hv6, hp6, -⟩ := readU32_ok_inv h6
    rw [RM.pure_def] at h7
    simp only [Res.ok.injEq] at h7
    obtain ⟨hv7, hp7⟩ := h7
    rw [RM.pure_def] at hok
    simp only [Res.ok.injEq] at hok
    obtain ⟨hb, hp⟩ := hok
    subst hb
    subst hp1; subst hp2; subst hp3; subst hp4; subst hp5; subst hp6; subst hp7
    subst hv1; subst hv2; subst hv3; subst hv4; subst hv5; subst hv6; subst hv7
    constructor
    · intro h; exact absurd h hv
    · intro _
      refine ⟨by omega, rfl, rfl, ?_⟩
      simp [Nat.add_assoc, bne_iff_ne]

/-- A concrete 32-byte version-27 block record: checksum 1, offsets 2/4,
sizes 3/5, compressed flag 1, padding 6. -/
def blockBytes27 : List Nat :=
  [1, 0, 0, 0, 0, 0, 0, 0] ++ [2, 0, 0, 0] ++ [3, 0, 0, 0] ++ [4, 0, 0, 0] ++
    [5, 0, 0, 0] ++ [1, 0, 0, 0] ++ [6, 0, 0, 0]

/-- The block decoded from `blockBytes27`. -/
def b27val : ModuleBlock :=
  { checksum := 1, compressed_offset := 2, compressed_size := 3,
    uncompressed_offset := 4, uncompressed_size := 5, compressed := true,
    padding := 6 }

/-- Witness for C6: decoding `blockBytes27` with version 27 consumes 32
bytes, the checksum is the leading 8-byte field, and the compressed boolean
reflects the nonzero flag. -/
theorem block_read_characterization_witness :
    32 = 0 + 32 ∧ b27val.checksum = sliceLE blockBytes27 0 8 ∧
      (b27val.compressed = true ↔ sliceLE blockBytes27 (0 + 24) 4 ≠ 0) := by
  have h := (block_read_characterization 27 blockBytes27 0 b27val 32
    (by decide)).1 rfl
  exact ⟨h.1, h.2.1, h.2.2.2⟩

/-- C5: header decoding succeeds only with version 23 or 27; any other
version value fails with the invalid-version error carrying that value; the
checksum is taken from the 8 bytes at offset 48 exactly when the version is
27 (and is left 0 otherwise), so a version-23 header ends 8 bytes earlier
than a version-27 one. -/
theorem header_version_gate :
    (∀ (data : List Nat) (pos : Nat) (h : ModuleHeader) (p' : Nat),
        ModuleHeader.read data pos = .ok h p' →
        (h.version = 23 ∧ h.checksum = 0 ∧ p' = pos + 48) ∨
        (h.version = 27 ∧ h.checksum = sliceLE data (pos + 48) 8 ∧
          p' = pos + 56)) ∧
    (∀ (data : List Nat) (pos : Nat),
        (data.drop pos).take 4 = [109, 111, 104, 100] →
        pos + 8 ≤ data.length →
        sliceLE data (pos + 4) 4 ≠ 27 → sliceLE data (pos + 4) 4 ≠ 23 →
        ModuleHeader.read data pos =
          .err (.invalidVersion (sliceLE data (pos + 4) 4)) (pos + 8)) := by
  constructor
  · intro data pos h p' hok
    simp only [ModuleHeader.read] at hok
    obtain ⟨magic, p1, h1, hok⟩ := RM.bind_ok_inv hok
    rw [RM.ite_apply] at hok
    by_cases hm : magic ≠ String.toList "mohd"
    · rw [if_pos hm, RM.throw_def] at hok
      exact absurd hok (by simp)
    · rw [if_neg hm] at hok
      obtain ⟨v, p2, h2, hok⟩ := RM.bind_ok_inv hok
      rw [RM.ite_apply] at hok
      by_cases hval : v ≠ 27 ∧ v ≠ 23
      · rw [if_pos hval, RM.throw_def] at hok
        exact absurd hok (by simp)
      · rw [if_neg hval] at hok
        obtain ⟨mid, p3, h3, hok⟩ := RM.bind_ok_inv hok
        obtain ⟨ic, p4, h4, hok⟩ := RM.bind_ok_inv hok
        obtain ⟨mc, p5, h5, hok⟩ := RM.bind_ok_inv hok
        obtain ⟨ri, p6, h6, hok⟩ := RM.bind_ok_inv hok
        obtain ⟨ss, p7, h7, hok⟩ := RM.bind_ok_inv hok
        obtain ⟨rc, p8, h8, hok⟩ := RM.bind_ok_inv hok
        obtain ⟨bc, p9, h9, hok⟩ := RM.bind_ok_inv hok
        obtain ⟨bv, p10, h10, hok⟩ := RM.bind_ok_inv hok
        obtain ⟨-, hp1, -⟩ := readFixedString_ok_inv h1
        obtain ⟨hv2, hp2, -⟩ := readU32_ok_inv h2
        obtain ⟨-, hp3, -⟩ := readU64_ok_inv h3
        obtain ⟨-, hp4, -⟩ := readU32_ok_inv h4
        obtain ⟨-, hp5, -⟩ := readU32_ok_inv h5
        obtain ⟨-, hp6, -⟩ := readI32_ok_inv h6
        obtain ⟨-, hp7, -⟩ := readU32_ok_inv h7
        obtain ⟨-, hp8, -⟩ := readU32_ok_inv h8
        obtain ⟨-, hp9, -⟩ := readU32_ok_inv h9
        obtain ⟨-, hp10, -⟩ := readU64_ok_inv h10
        rw [RM.ite_apply] at hok
        by_cases hv27 : v = 27
        · rw [if_pos hv27] at hok
          obtain ⟨cks, p11, hck, hok⟩ := RM.bind_ok_inv hok
          obtain ⟨hcv, hp11, -⟩ := readU64_ok_inv hck
          rw [RM.pure_def] at hok
          simp only [Res.ok.injEq] at hok
          obtain ⟨hb, hp⟩ := hok
          subst hb
          right
          subst hp1; subst hp2; subst hp3; subst hp4; subst hp5; subst hp6
          subst hp7; subst hp8; subst hp9; subst hp10; subst hp11; subst hcv
          refine ⟨by simp [hv27], ?_, by omega⟩
          simp [Nat.add_assoc]
        · rw [if_neg hv27] at hok
          obtain ⟨cks, p11, hck, hok⟩ := RM.bind_ok_inv hok
          rw [RM.pure_def] at hck
          simp only [Res.ok.injEq] at hck
          obtain ⟨hcv, hp11⟩ := hck
          rw [RM.pure_def] at hok
          simp only [Res.ok.injEq] at hok
          obtain ⟨hb, hp⟩ := hok
          subst hb
          left
          have hv23 : v = 23 := by tauto
          subst hp1; subst hp2; subst hp3; subst hp4; subst hp5; subst hp6
          subst hp7; subst hp8; subst hp9; subst hp10
          refine ⟨by simp [hv23], by simp [hcv.symm], by omega⟩
  · intro data pos hmagic hlen hv27 hv23
    simp only [ModuleHeader.read]
    have h1 : readFixedString data 4 pos =
        .ok (trimEndNulls (utf8DecodeLossy ((data.drop pos).take 4))) (pos + 4) := by
      rw [readFixedString_eq, if_pos (by omega)]
    rw [RM.bind_ok h1, hmagic]
    have hmohd : trimEndNulls (utf8DecodeLossy [109, 111, 104, 100]) =
        String.toList "mohd" := by decide
    rw [hmohd, RM.ite_apply, if_neg (by simp)]
    have h2 : readU32 data (pos + 4) =
        .ok (sliceLE data (pos + 4) 4) (pos + 4 + 4) := by
      rw [readU32_eq, if_pos (by omega)]
    rw [RM.bind_ok h2, RM.ite_apply, if_pos ⟨hv27, hv23⟩, RM.throw_def]

/-- The header decoded from the version-23 module `mod0`. -/
def hdr0 : ModuleHeader := { magic := String.toList "mohd", version := 23, item_count := 1 }

set_option maxRecDepth 4000 in
/-- Witness for C5: the concrete version-23 header of `mod0` decodes with
version 23, checksum 0, and final position 48. -/
theorem header_version_gate_witness :
    hdr0.version = 23 ∧ hdr0.checksum = 0 ∧ 48 = 0 + 48 :=
  (header_version_gate.1 mod0 0 hdr0 48 (by decide)).resolve_right (by decide)

theorem char_toNat_ofNat_of_valid {n : Nat} (h : Nat.isValidChar n) :
    (Char.ofNat n).toNat = n := by
  unfold Char.ofNat
  rw [dif_pos h]
  rfl

theorem isCont_bounds {b : Nat} (h : isCont b = true) : 128 ≤ b ∧ b < 192 := by
  simpa [isCont] using h

theorem isCont2_bounds {x b1 : Nat} (h : isCont2 x b1 = true) :
    128 ≤ b1 ∧ b1 < 192 ∧ (x = 224 → 160 ≤ b1) ∧ (x = 237 → b1 < 160) := by
  unfold isCont2 at h
  by_cases h1 : x = 224
  · rw [if_pos h1] at h
    simp at h
    exact ⟨by omega, by omega, fun _ => by omega, fun hx => by omega⟩
  · rw [if_neg h1] at h
    by_cases h2 : x = 237
    · rw [if_pos h2] at h
      simp at h
      exact ⟨by omega, by omega, fun hx => by omega, fun _ => by omega⟩
    · rw [if_neg h2] at h
      have := isCont_bounds h
      exact ⟨this.1, this.2, fun hx => absurd hx h1, fun hx => absurd hx h2⟩

theorem isCont3_bounds {x b1 : Nat} (h : isCont3 x b1 = true) :
    128 ≤ b1 ∧ b1 < 192 ∧ (x = 240 → 144 ≤ b1) ∧ (x = 244 → b1 < 144) := by
  unfold isCont3 at h
  by_cases h1 : x = 240
  · rw [if_pos h1] at h
    simp at h
    exact ⟨by omega, by omega, fun _ => by omega, fun hx => by omega⟩
  · rw [if_neg h1] at h
    by_cases h2 : x = 244
    · rw [if_pos h2] at h
      simp at h
      exact ⟨by omega, by omega, fun hx => by omega, fun _ => by omega⟩
    · rw [if_neg h2] at h
      have := isCont_bounds h
      exact ⟨this.1, this.2, fun hx => absurd hx h1, fun hx => absurd hx h2⟩

/-- A character below 128 in the output of lossy decoding comes from the
single ASCII byte equal to it, consuming exactly that byte. -/
theorem lossy_ascii_cons {x : Nat} {r : List Nat} {c : Char} {cs : List Char}
    (h : utf8DecodeLossy (x :: r) = c :: cs) (hc : c.toNat < 128) :
    x = c.toNat ∧ cs = utf8DecodeLossy r := by
  have hrepl : replChar.toNat = 65533 := by decide
  rw [utf8DecodeLossy.eq_def] at h
  dsimp only at h
  by_cases h1 : x < 128
  · rw [if_pos h1] at h
    injection h with e1 e2
    subst e1
    rw [char_toNat_ofNat_of_valid (Or.inl (by omega))]
    exact ⟨rfl, e2.symm⟩
  · rw [if_neg h1] at h
    by_cases h2 : x < 194
    · rw [if_pos h2] at h
      injection h with e1 e2
      rw [← e1, hrepl] at hc
      omega
    · rw [if_neg h2] at h
      by_cases h3 : x < 224
      · rw [if_pos h3] at h
        cases r with
        | nil =>
          dsimp only at h
          injection h with e1 e2
          rw [← e1, hrepl] at hc
          omega
        | cons b1 r1 =>
          dsimp only at h
          by_cases hb1 : isCont b1
          · rw [if_pos hb1] at h
            injection h with e1 e2
            obtain ⟨hb1a, hb1b⟩ := isCont_bounds hb1
            rw [← e1, char_toNat_ofNat_of_valid (Or.inl (by omega))] at hc
            omega
          · rw [if_neg hb1] at h
            injection h with e1 e2
            rw [← e1, hrepl] at hc
            omega
      · rw [if_neg h3] at h
        by_cases h4 : x < 240
        · rw [if_pos h4] at h
          cases r with
          | nil =>
            dsimp only at h
            injection h with e1 e2
            rw [← e1, hrepl] at hc
            omega
          | cons b1 r1 =>
            dsimp only at h
            by_cases hb1 : isCont2 x b1
            · rw [if_pos hb1] at h
              obtain ⟨hba, hbb, h224, h237⟩ := isCont2_bounds hb1
              cases r1 with
              | nil =>
                dsimp only at h
                injection h with e1 e2
                rw [← e1, hrepl] at hc
                omega
              | cons b2 r2 =>
                dsimp only at h
                by_cases hb2 : isCont b2
                · rw [if_pos hb2] at h
                  injection h with e1 e2
                  obtain ⟨hb2a, hb2b⟩ := isCont_bounds hb2
                  have hval : Nat.isValidChar
                      ((x - 224) * 4096 + (b1 - 128) * 64 + (b2 - 128)) := by
                    by_cases hx237 : x = 237
                    · exact Or.inl (by have := h237 hx237; omega)
                    · by_cases hx238 : x < 238
                      · exact Or.inl (by omega)
                      · exact Or.inr ⟨by omega, by omega⟩
                  rw [← e1, char_toNat_ofNat_of_valid hval] at hc
                  by_cases hx224 : x = 224
                  · have := h224 hx224; omega
                  · omega
                · rw [if_neg hb2] at h
                  injection h with e1 e2
                  rw [← e1, hrepl] at hc
                  omega
            · rw [if_neg hb1] at h
              injection h with e1 e2
              rw [← e1, hrepl] at hc
              omega
        · rw [if_neg h4] at h
          by_cases h5 : x < 245
          · rw [if_pos h5] at h
            cases r with
            | nil =>
              dsimp only at h
              injection h with e1 e2
              rw [← e1, hrepl] at hc
              omega
            | cons b1 r1 =>
              dsimp only at h
              by_cases hb1 : isCont3 x b1
              · rw [if_pos hb1] at h
                obtain ⟨hba, hbb, h240, h244⟩ := isCont3_bounds hb1
                cases r1 with
                | nil =>
                  dsimp only at h
                  injection h with e1 e2
                  rw [← e1, hrepl] at hc
                  omega
                | cons b2 r2 =>
                  dsimp only at h
                  by_cases hb2 : isCont b2
                  · rw [if_pos hb2] at h
                    obtain ⟨hb2a, hb2b⟩ := isCont_bounds hb2
                    cases r2 with
                    | nil =>
                      dsimp only at h
                      injection h with e1 e2
                      rw [← e1, hrepl] at hc
                      omega
                    | cons b3 r3 =>
                      dsimp only at h
                      by_cases hb3 : isCont b3
                      · rw [if_pos hb3] at h
                        injection h with e1 e2
                        obtain ⟨hb3a, hb3b⟩ := isCont_bounds hb3
                        have hval : Nat.isValidChar ((x - 240) * 262144 +
                            (b1 - 128) * 4096 + (b2 - 128) * 64 + (b3 - 128)) := by
                          refine Or.inr ⟨?_, ?_⟩
                          · by_cases hx240 : x = 240
                            · have := h240 hx240; omega
                            · omega
                          · by_cases hx244 : x = 244
                            · have := h244 hx244; omega
                            · omega
                        rw [← e1, char_toNat_ofNat_of_valid hval] at hc
                        by_cases hx240 : x = 240
                        · have := h240 hx240; omega
                        · omega
                      · rw [if_neg hb3] at h
                        injection h with e1 e2
                        rw [← e1, hrepl] at hc
                        omega
                  · rw [if_neg hb2] at h
                    injection h with e1 e2
                    rw [← e1, hrepl] at hc
                    omega
              · rw [if_neg hb1] at h
                injection h with e1 e2
                rw [← e1, hrepl] at hc
                omega
          · rw [if_neg h5] at h
            injection h with e1 e2
            rw [← e1, hrepl] at hc
            omega

/-- Any list of characters is its trailing-NUL-trimmed form followed by some
number of NULs. -/
theorem trimEndNulls_decomp (l : List Char) :
    ∃ k, l = trimEndNulls l ++ List.replicate k (Char.ofNat 0) := by
  refine ⟨(l.reverse.takeWhile (fun c => c == Char.ofNat 0)).length, ?_⟩
  unfold trimEndNulls
  conv_lhs =>
    rw [← l.reverse_reverse]
    rw [← List.takeWhile_append_dropWhile
          (fun c => c == Char.ofNat 0) l.reverse]
    rw [List.reverse_append]
  congr 1
  rw [List.eq_replicate_iff]
  refine ⟨by simp, ?_⟩
  intro b hb
  rw [List.mem_reverse] at hb
  have := List.mem_takeWhile_imp hb
  simpa using this

/-- Only the exact bytes `mohd` lossily decode and trim to the string
`mohd`. -/
theorem lossy_trim_mohd {b : List Nat} (hlen : b.length = 4)
    (h : trimEndNulls (utf8DecodeLossy b) = String.toList "mohd") :
    b = [109, 111, 104, 100] := by
  obtain ⟨k, hdec⟩ := trimEndNulls_decomp (utf8DecodeLossy b)
  rw [h] at hdec
  have hlist : String.toList "mohd" = ['m', 'o', 'h', 'd'] := rfl
  rw [hlist] at hdec
  rcases b with _ | ⟨b0, _ | ⟨b1, _ | ⟨b2, _ | ⟨b3, _ | ⟨b4, t⟩⟩⟩⟩⟩ <;>
    simp at hlen
  obtain ⟨e0, hdec⟩ := lossy_ascii_cons hdec (by decide)
  obtain ⟨e1, hdec⟩ := lossy_ascii_cons hdec.symm (by decide)
  obtain ⟨e2, hdec⟩ := lossy_ascii_cons hdec.symm (by decide)
  obtain ⟨e3, hdec⟩ := lossy_ascii_cons hdec.symm (by decide)
  subst e0; subst e1; subst e2; subst e3
  decide

theorem readExact_err_inv {data : List Nat} {n pos : Nat} {e : Err} {p : Nat}
    (h : readExact data n pos = .err e p) : e = .ioShortRead := by
  rw [readExact_eq] at h
  split at h
  · exact absurd h (by simp)
  · simp only [Res.err.injEq] at h
    exact h.1.symm

theorem readU32_err_inv {data : List Nat} {pos : Nat} {e : Err} {p : Nat}
    (h : readU32 data pos = .err e p) : e = .ioShortRead := by
  rw [readU32_eq] at h
  split at h
  · exact absurd h (by simp)
  · simp only [Res.err.injEq] at h
    exact h.1.symm

theorem readU64_err_inv {data : List Nat} {pos : Nat} {e : Err} {p : Nat}
    (h : readU64 data pos = .err e p) : e = .ioShortRead := by
  rw [readU64_eq] at h
  split at h
  · exact absurd h (by simp)
  · simp only [Res.err.injEq] at h
    exact h.1.symm

theorem readI32_err_inv {data : List Nat} {pos : Nat} {e : Err} {p : Nat}
    (h : readI32 data pos = .err e p) : e = .ioShortRead := by
  rw [readI32_eq] at h
  split at h
  · exact absurd h (by simp)
  · simp only [Res.err.injEq] at h
    exact h.1.symm

/-- C4 (amended): header decoding proceeds past the magic check exactly when
the 4 bytes read are `mohd`; for any other 4 bytes it fails with an
invalid-magic error carrying the lossily decoded, trailing-NUL-trimmed text
of those bytes (which for bytes with trailing NULs is shorter than the
4-byte text actually found). -/
theorem header_magic_gate :
    (∀ (data : List Nat) (pos : Nat),
        pos + 4 ≤ data.length →
        (data.drop pos).take 4 ≠ [109, 111, 104, 100] →
        ModuleHeader.read data pos =
          .err (.invalidMagic
              (trimEndNulls (utf8DecodeLossy ((data.drop pos).take 4))))
            (pos + 4)) ∧
    (∀ (data : List Nat) (pos : Nat) (e : Err) (p' : Nat),
        (data.drop pos).take 4 = [109, 111, 104, 100] →
        ModuleHeader.read data pos = .err e p' →
        ∀ t, e ≠ .invalidMagic t) := by
  constructor
  · intro data pos hlen hne
    simp only [ModuleHeader.read]
    have h1 : readFixedString data 4 pos =
        .ok (trimEndNulls (utf8DecodeLossy ((data.drop pos).take 4))) (pos + 4) := by
      rw [readFixedString_eq, if_pos (by omega)]
    rw [RM.bind_ok h1]
    have hslice : ((data.drop pos).take 4).length = 4 := by
      simp [List.length_take, List.length_drop]
      omega
    have hcond : trimEndNulls (utf8DecodeLossy ((data.drop pos).take 4)) ≠
        String.toList "mohd" := by
      intro hEq
      exact hne (lossy_trim_mohd hslice hEq)
    rw [RM.ite_apply, if_pos hcond, RM.throw_def]
  · intro data pos e p' hmagic herr
    simp only [ModuleHeader.read] at herr
    have h1 : readFixedString data 4 pos =
        .ok (trimEndNulls (utf8DecodeLossy ((data.drop pos).take 4))) (pos + 4) := by
      rw [readFixedString_eq, if_pos ?side]
      case side =>
        have : ((data.drop pos).take 4).length = 4 := by rw [hmagic]; rfl
        simp [List.length_take, List.length_drop] at this
        omega
    rw [RM.bind_ok h1, hmagic] at herr
    have hmohd : trimEndNulls (utf8DecodeLossy [109, 111, 104, 100]) =
        String.toList "mohd" := by decide
    rw [hmohd, RM.ite_apply, if_neg (by simp)] at herr
    intro t
    cases h2 : readU32 data (pos + 4) with
    | err e2 p2 =>
      rw [RM.bind_err h2] at herr
      simp only [Res.err.injEq] at herr
      rw [← herr.1, readU32_err_inv h2]
      simp
    | ok v p2 =>
      rw [RM.bind_ok h2, RM.ite_apply] at herr
      by_cases hval : v ≠ 27 ∧ v ≠ 23
      · rw [if_pos hval, RM.throw_def] at herr
        simp only [Res.err.injEq] at herr
        rw [← herr.1]
        simp
      · rw [if_neg hval] at herr
        cases h3 : readU64 data p2 with
        | err e3 p3 =>
          rw [RM.bind_err h3] at herr
          simp only [Res.err.injEq] at herr
          rw [← herr.1, readU64_err_inv h3]
          simp
        | ok v3 p3 =>
          rw [RM.bind_ok h3] at herr
          cases h4 : readU32 data p3 with
          | err e4 p4 =>
            rw [RM.bind_err h4] at herr
            simp only [Res.err.injEq] at herr
            rw [← herr.1, readU32_err_inv h4]
            simp
          | ok v4 p4 =>
            rw [RM.bind_ok h4] at herr
            cases h5 : readU32 data p4 with
            | err e5 p5 =>
              rw [RM.bind_err h5] at herr
              simp only [Res.err.injEq] at herr
              rw [← herr.1, readU32_err_inv h5]
              simp
            | ok v5 p5 =>
              rw [RM.bind_ok h5] at herr
              cases h6 : readI32 data p5 with
              | err e6 p6 =>
                rw [RM.bind_err h6] at herr
                simp only [Res.err.injEq] at herr
                rw [← herr.1, readI32_err_inv h6]
                simp
              | ok v6 p6 =>
                rw [RM.bind_ok h6] at herr
                cases h7 : readU32 data p6 with
                | err e7 p7 =>
                  rw [RM.bind_err h7] at herr
                  simp only [Res.err.injEq] at herr
                  rw [← herr.1, readU32_err_inv h7]
                  simp
                | ok v7 p7 =>
                  rw [RM.bind_ok h7] at herr
                  cases h8 : readU32 data p7 with
                  | err e8 p8 =>
                    rw [RM.bind_err h8] at herr
                    simp only [Res.err.injEq] at herr
                    rw [← herr.1, readU32_err_inv h8]
                    simp
                  | ok v8 p8 =>
                    rw [RM.bind_ok h8] at herr
                    cases h9 : readU32 data p8 with
                    | err e9 p9 =>
                      rw [RM.bind_err h9] at herr
                      simp only [Res.err.injEq] at herr
                      rw [← herr.1, readU32_err_inv h9]
                      simp
                    | ok v9 p9 =>
                      rw [RM.bind_ok h9] at herr
                      cases h10 : readU64 data p9 with
                      | err e10 p10 =>
                        rw [RM.bind_err h10] at herr
                        simp only [Res.err.injEq] at herr
                        rw [← herr.1, readU64_err_inv h10]
                        simp
                      | ok v10 p10 =>
                        rw [RM.bind_ok h10, RM.ite_apply] at herr
                        by_cases hv27 : v = 27
                        · rw [if_pos hv27] at herr
                          cases h11 : readU64 data p10 with
                          | err e11 p11 =>
                            rw [RM.bind_err h11] at herr
                            simp only [Res.err.injEq] at herr
                            rw [← herr.1, readU64_err_inv h11]
                            simp
                          | ok v11 p11 =>
                            rw [RM.bind_ok h11, RM.pure_def] at herr
                            exact absurd herr (by simp)
                        · rw [if_neg hv27] at herr
                          rw [RM.bind_ok (RM.pure_def 0 p10), RM.pure_def] at herr
                          exact absurd herr (by simp)

/-- Counterexample to C4 as stated: on the 4 magic bytes `moh\0` the parser
fails with an invalid-magic error carrying the 3-character text `moh`, not
the 4-byte text actually found in the stream. -/
theorem header_magic_counterexample :
    ModuleHeader.read [109, 111, 104, 0] 0 =
      .err (.invalidMagic ['m', 'o', 'h']) 4 ∧
    (['m', 'o', 'h'] : List Char).length ≠ 4 := by
  exact ⟨by decide, by decide⟩

/-- Witness for C4: the wrong-case magic `MOHD` fails with an invalid-magic
error carrying exactly the text `MOHD`. -/
theorem header_magic_gate_witness :
    ModuleHeader.read [77, 79, 72, 68] 0 =
      .err (.invalidMagic ['M', 'O', 'H', 'D']) (0 + 4) := by
  have h := header_magic_gate.1 [77, 79, 72, 68] 0 (by decide) (by decide)
  rw [h]
  decide

/-- C8 (amended): a decoded file entry's `group_tag` is the character
reversal of the text read for the 4 group-tag bytes at entry offset 64 —
that text being their lossy UTF-8 decoding with trailing NULs trimmed, so
for tags with trailing NUL bytes the result is not the reversal of all 4
stored characters.  The record consumes exactly 88 bytes. -/
theorem entry_read_group_tag (data : List Nat) (pos : Nat)
    (e : ModuleFileEntry) (p' : Nat)
    (hok : ModuleFileEntry.read data pos = .ok e p') :
    p' = pos + 88 ∧
    e.group_tag =
      (trimEndNulls (utf8DecodeLossy ((data.drop (pos + 64)).take 4))).reverse ∧
    e.flags = FileFlags.fromBitsTruncate (sliceLE data (pos + 43) 1) ∧
    e.total_uncompressed_size = sliceLE data (pos + 36) 4 := by
  simp only [ModuleFileEntry.read] at hok
  obtain ⟨a1, p1, h1, hok⟩ := RM.bind_ok_inv hok
  obtain ⟨a2, p2, h2, hok⟩ := RM.bind_ok_inv hok
  obtain ⟨a3, p3, h3, hok⟩ := RM.bind_ok_inv hok
  obtain ⟨a4, p4, h4, hok⟩ := RM.bind_ok_inv hok
  obtain ⟨a5, p5, h5, hok⟩ := RM.bind_ok_inv hok
  obtain ⟨a6, p6, h6, hok⟩ := RM.bind_ok_inv hok
  obtain ⟨a7, p7, h7, hok⟩ := RM.bind_ok_inv hok
  obtain ⟨a8, p8, h8, hok⟩ := RM.bind_ok_inv hok
  obtain ⟨a9, p9, h9, hok⟩ := RM.bind_ok_inv hok
  obtain ⟨a10, p10, h10, hok⟩ := RM.bind_ok_inv hok
  obtain ⟨a11, p11, h11, hok⟩ := RM.bind_ok_inv hok
  obtain ⟨a12, p12, h12, hok⟩ := RM.bind_ok_inv hok
  obtain ⟨a13, p13, h13, hok⟩ := RM.bind_ok_inv hok
  obtain ⟨a14, p14, h14, hok⟩ := RM.bind_ok_inv hok
  obtain ⟨a15, p15, h15, hok⟩ := RM.bind_ok_inv hok
  obtain ⟨a16, p16, h16, hok⟩ := RM.bind_ok_inv hok
  obtain ⟨a17, p17, h17, hok⟩ := RM.bind_ok_inv hok
  obtain ⟨a18, p18, h18, hok⟩ := RM.bind_ok_inv hok
  obtain ⟨a19, p19, h19, hok⟩ := RM.bind_ok_inv hok
  obtain ⟨a20, p20, h20, hok⟩ := RM.bind_ok_inv hok
  obtain ⟨a21, p21, h21, hok⟩ := RM.bind_ok_inv hok
  obtain ⟨a22, p22, h22, hok⟩ := RM.bind_ok_inv hok
  obtain ⟨a23, p23, h23, hok⟩ := RM.bind_ok_inv hok
  obtain ⟨a24, p24, h24, hok⟩ := RM.bind_ok_inv hok
  obtain ⟨hv1, hp1, -⟩ := readU32_ok_inv h1
  obtain ⟨hv2, hp2, -⟩ := readI32_ok_inv h2
  obtain ⟨hv3, hp3, -⟩ := readU32_ok_inv h3
  obtain ⟨hv4, hp4, -⟩ := readI32_ok_inv h4
  obtain ⟨hv5, hp5, -⟩ := readU32_ok_inv h5
  obtain ⟨hv6, hp6, -⟩ := readI32_ok_inv h6
  obtain ⟨hv7, hp7, -⟩ := readU64_ok_inv h7
  obtain ⟨hv8, hp8, -⟩ := readU32_ok_inv h8
  obtain ⟨hv9, hp9, -⟩ := readU32_ok_inv h9
  obtain ⟨hv10, hp10, -⟩ := readU8_ok_inv h10
  obtain ⟨hv11, hp11, -⟩ := readU8_ok_inv h11
  obtain ⟨hv12, hp12, -⟩ := readU8_ok_inv h12
  obtain ⟨hv13, hp13, -⟩ := readU8_ok_inv h13
  obtain ⟨hv14, hp14, -⟩ := readI32_ok_inv h14
  obtain ⟨hv15, hp15, -⟩ := readI64_ok_inv h15
  obtain ⟨hv16, hp16, -⟩ := readI64_ok_inv h16
  obtain ⟨hv17, hp17, -⟩ := readFixedString_ok_inv h17
  obtain ⟨hv18, hp18, -⟩ := readU32_ok_inv h18
  obtain ⟨hv19, hp19, -⟩ := readU32_ok_inv h19
  obtain ⟨hv20, hp20, -⟩ := readU32_ok_inv h20
  obtain ⟨hv21, hp21, -⟩ := readI16_ok_inv h21
  obtain ⟨hv22, hp22, -⟩ := readI16_ok_inv h22
  obtain ⟨hv23, hp23, -⟩ := readI16_ok_inv h23
  obtain ⟨hv24, hp24, -⟩ := readI16_ok_inv h24
  rw [RM.pure_def] at hok
  simp only [Res.ok.injEq] at hok
  obtain ⟨hb, hp⟩ := hok
  subst hb
  subst hp1; subst hp2; subst hp3; subst hp4; subst hp5; subst hp6
  subst hp7; subst hp8; subst hp9; subst hp10; subst hp11; subst hp12
  subst hp13; subst hp14; subst hp15; subst hp16; subst hp17; subst hp18
  subst hp19; subst hp20; subst hp21; subst hp22; subst hp23; subst hp24
  subst hv17; subst hv13; subst hv9
  refine ⟨by omega, ?_, ?_, ?_⟩ <;> simp [Nat.add_assoc]

/-- The file entry decoded from `entryBytes` (its group tag is the reversal
of `bitm`). -/
def ent0 : ModuleFileEntry :=
  { total_compressed_size := 2, total_uncompressed_size := 3,
    flags := { compressed := true }, group_tag := ['m', 't', 'i', 'b'] }

set_option maxRecDepth 8000 in
/-- Witness for C8: the entry decoded from `entryBytes` carries the
character-reversed, NUL-trimmed group tag and consumes 88 bytes. -/
theorem entry_read_group_tag_witness :
    88 = 0 + 88 ∧
    ent0.group_tag =
      (trimEndNulls (utf8DecodeLossy ((entryBytes.drop (0 + 64)).take 4))).reverse := by
  have h := entry_read_group_tag entryBytes 0 ent0 88 (by decide)
  exact ⟨h.1, h.2.1⟩

/-- Counterexample to C8 as stated: an entry whose stored group-tag bytes
are `abc\0` decodes to group tag `cba`, which is not the reversal
`\0cba` of the 4 characters as stored in the file. -/
theorem entry_group_tag_counterexample :
    ModuleFileEntry.read
        (List.replicate 64 0 ++ [97, 98, 99, 0] ++ List.replicate 20 0) 0 =
      .ok { group_tag := ['c', 'b', 'a'] } 88 ∧
    (['c', 'b', 'a'] : List Char) ≠ (List.map Char.ofNat [97, 98, 99, 0]).reverse :=
  ⟨by decide, by decide⟩

/-- C7 (amended): name resolution for an entry seeks to the position
`(file_name_offset + name_offset) mod 2^32` — the name-table base truncated
to `u32` plus the entry's offset, in wrapping 32-bit arithmetic — and reads
one null-terminated text value from there; the result is independent of the
incoming stream position (each entry performs its own seek) and the
position after it is wherever the C-string read ended (no prior position is
restored).  The name pass runs this sequentially over all entries. -/
theorem read_name_characterization :
    (∀ (data : List Nat) (e : ModuleFileEntry) (fno pos : Nat),
        ModuleFileEntry.read_name data e fno pos =
          match readCString data ((fno + e.name_offset) % 4294967296) with
          | .ok n p' => .ok { e with name := n } p'
          | .err er p' => .err er p') ∧
    (∀ (data : List Nat) (fno : Nat) (e : ModuleFileEntry)
        (rest : List ModuleFileEntry) (pos : Nat),
        readNames data fno [] pos = .ok [] pos ∧
        readNames data fno (e :: rest) pos =
          match ModuleFileEntry.read_name data e fno pos with
          | .ok e' p₁ =>
            (match readNames data fno rest p₁ with
             | .ok rest' p₂ => .ok (e' :: rest') p₂
             | .err er p₂ => .err er p₂)
          | .err er p₁ => .err er p₁) := by
  constructor
  · intro data e fno pos
    simp only [ModuleFileEntry.read_name]
    rw [RM.bind_ok (show RM.seek ((fno + e.name_offset) % 4294967296) pos =
          .ok () ((fno + e.name_offset) % 4294967296) from rfl)]
    cases hc : readCString data ((fno + e.name_offset) % 4294967296) with
    | ok n p' => rw [RM.bind_ok hc, RM.pure_def]
    | err er p' => rw [RM.bind_err hc]
  · intro data fno e rest pos
    constructor
    · rfl
    · simp only [readNames]
      cases hn : ModuleFileEntry.read_name data e fno pos with
      | ok e' p₁ =>
        rw [RM.bind_ok hn]
        cases hr : readNames data fno rest p₁ with
        | ok rest' p₂ => rw [RM.bind_ok hr, RM.pure_def]; simp [hr]
        | err er p₂ => rw [RM.bind_err hr]; simp [hr]
      | err er p₁ => rw [RM.bind_err hn]

/-- Counterexample to C7 as stated: with name-table base 2 and
`name_offset = 2^32 - 1` the code seeks to the wrapped 32-bit position 1
and reads the name `A`, whereas the claimed absolute position
`base + name_offset = 2^32 + 1` is past the end of the stream and holds the
empty name. -/
theorem read_name_counterexample :
    ModuleFileEntry.read_name [0, 65, 0] { name_offset := 4294967295 } 2 0 =
      .ok { name_offset := 4294967295, name := ['A'] } 3 ∧
    readCString [0, 65, 0] (2 + 4294967295) = .ok [] 4294967297 ∧
    (['A'] : List Char) ≠ [] :=
  ⟨by decide, by decide, by decide⟩

/-- Witness for C7: `read_name` on the same entry from a different incoming
position 5 still reads `A` at wrapped position 1 and ends at position 3. -/
theorem read_name_characterization_witness :
    ModuleFileEntry.read_name [0, 65, 0] { name_offset := 4294967295 } 2 5 =
      .ok { name_offset := 4294967295, name := ['A'] } 3 := by
  rw [read_name_characterization.1]
  decide

/-- Replace entry `index` of a module with `file` carrying buffer `d`. -/
def setEntryData (m : H5Module) (index : Nat) (file : ModuleFileEntry)
    (d : List Nat) : H5Module :=
  { m with files := m.files.set index ({ file with data := d }) }

/-- C10 (amended): parse failures are terminal and never retried.  A header
error is the error result of the whole parse; an error inside the
file-entry, resource-index, or block-table loops aborts via a panic
(`unwrap`) rather than surfacing as the underlying I/O error result; a
failure of `read_tag` on one entry aborts the reconstruction loop — and
hence the whole parse — with that error, leaving no partial result; a
name-resolution error aborts the name pass and likewise becomes the error
result of the whole parse. -/
theorem module_read_error_propagation :
    (∀ (inflate : List Nat → List Nat) (data : List Nat) (pos : Nat)
        (e : Err) (p₁ : Nat),
        ModuleHeader.read data pos = .err e p₁ →
        H5Module.read inflate data pos = .err e p₁) ∧
    (∀ (data : List Nat) (n pos : Nat) (e : Err) (p₁ : Nat),
        ModuleFileEntry.read data pos = .err e p₁ →
        readEntries data (n + 1) pos = .err .panicked p₁) ∧
    (∀ (data : List Nat) (n pos : Nat) (e : Err) (p₁ : Nat),
        readI32 data pos = .err e p₁ →
        readResourceIndices data (n + 1) pos = .err .panicked p₁) ∧
    (∀ (data : List Nat) (isForge : Bool) (n pos : Nat) (e : Err) (p₁ : Nat),
        ModuleBlock.read data isForge pos = .err e p₁ →
        readBlocks data isForge (n + 1) pos = .err .panicked p₁) ∧
    (∀ (inflate : List Nat → List Nat) (data : List Nat) (m : H5Module)
        (i n pos : Nat) (e : Err) (p₁ : Nat),
        H5Module.read_tag inflate data m i pos = .err e p₁ →
        H5Module.readTags inflate data m i (n + 1) pos = .err e p₁) ∧
    (∀ (inflate : List Nat → List Nat) (data : List Nat) (pos : Nat)
        (hdr : ModuleHeader) (p₁ : Nat) (files : List ModuleFileEntry)
        (p₂ : Nat) (files₂ : List ModuleFileEntry) (p₃ : Nat)
        (ris : List Int) (p₄ : Nat) (blocks : List ModuleBlock) (p₅ : Nat)
        (e : Err) (p₆ : Nat),
        ModuleHeader.read data pos = .ok hdr p₁ →
        readEntries data hdr.item_count p₁ = .ok files p₂ →
        readNames data (p₂ % 4294967296) files p₂ = .ok files₂ p₃ →
        readResourceIndices data hdr.resource_count p₃ = .ok ris p₄ →
        readBlocks data (hdr.version == 27) hdr.block_count p₄ = .ok blocks p₅ →
        H5Module.readTags inflate data
            { header := hdr, files := files₂, resource_indices := ris,
              blocks := blocks, data_offset := p₅ } 0 files₂.length p₅ =
          .err e p₆ →
        H5Module.read inflate data pos = .err e p₆) ∧
    (∀ (data : List Nat) (fno : Nat) (e : ModuleFileEntry)
        (rest : List ModuleFileEntry) (pos : Nat) (er : Err) (p₁ : Nat),
        ModuleFileEntry.read_name data e fno pos = .err er p₁ →
        readNames data fno (e :: rest) pos = .err er p₁) ∧
    (∀ (inflate : List Nat → List Nat) (data : List Nat) (pos : Nat)
        (hdr : ModuleHeader) (p₁ : Nat) (files : List ModuleFileEntry)
        (p₂ : Nat) (e : Err) (p₃ : Nat),
        ModuleHeader.read data pos = .ok hdr p₁ →
        readEntries data hdr.item_count p₁ = .ok files p₂ →
        readNames data (p₂ % 4294967296) files p₂ = .err e p₃ →
        H5Module.read inflate data pos = .err e p₃) := by
  refine ⟨?_, ?_, ?_, ?_, ?_, ?_, ?_, ?_⟩
  · intro inflate data pos e p₁ h
    simp only [H5Module.read]
    rw [RM.bind_err h]
  · intro data n pos e p₁ h
    simp only [readEntries]
    rw [RM.bind_err (RM.unwrapped_err h)]
  · intro data n pos e p₁ h
    simp only [readResourceIndices]
    rw [RM.bind_err (RM.unwrapped_err h)]
  · intro data isForge n pos e p₁ h
    simp only [readBlocks]
    rw [RM.bind_err (RM.unwrapped_err h)]
  · intro inflate data m i n pos e p₁ h
    simp only [H5Module.readTags]
    rw [RM.bind_err h]
  · intro inflate data pos hdr p₁ files p₂ files₂ p₃ ris p₄ blocks p₅ e p₆
      h1 h2 h3 h4 h5 h6
    simp only [H5Module.read]
    rw [RM.bind_ok h1, RM.bind_ok h2,
        RM.bind_ok (show RM.streamPosition p₂ = .ok p₂ p₂ from rfl),
        RM.bind_ok h3, RM.bind_ok h4, RM.bind_ok h5,
        RM.bind_ok (show RM.streamPosition p₅ = .ok p₅ p₅ from rfl)]
    exact h6
  · intro data fno e rest pos er p₁ h
    simp only [readNames]
    rw [RM.bind_err h]
  · intro inflate data pos hdr p₁ files p₂ e p₃ h1 h2 h3
    simp only [H5Module.read]
    rw [RM.bind_ok h1, RM.bind_ok h2,
        RM.bind_ok (show RM.streamPosition p₂ = .ok p₂ p₂ from rfl),
        RM.bind_err h3]

/-- Counterexample to C10 as stated: a module whose stream ends right after
a valid header announcing one file entry dies with a panic (`unwrap` on the
short entry read), not with the short-read I/O error result. -/
theorem module_read_panic_counterexample :
    H5Module.read inflate0 hdrBytes 0 = .err .panicked 48 ∧
    Err.panicked ≠ Err.ioShortRead :=
  ⟨by decide, by decide⟩

/-- Witness for C10: a failing entry read on an empty stream panics the
entry loop at position 0. -/
theorem module_read_error_propagation_witness :
    readEntries [] 1 0 = .err .panicked 0 := by
  have h := module_read_error_propagation.2.1 [] 0 0 Err.ioShortRead 0 (by decide)
  exact h

theorem writeRange_length {buf : List Nat} {i : Nat} {xs : List Nat}
    (h : i + xs.length ≤ buf.length) :
    (writeRange buf i xs).length = buf.length := by
  simp [writeRange]
  omega

theorem writeRange_getElem? {buf : List Nat} {i : Nat} {xs : List Nat}
    (h : i + xs.length ≤ buf.length) (j : Nat) :
    (writeRange buf i xs)[j]? =
      if i ≤ j ∧ j < i + xs.length then xs[j - i]? else buf[j]? := by
  unfold writeRange
  have hlt : (List.take i buf).length = i := by
    simp [List.length_take]
    omega
  have hlen : (List.take i buf ++ xs).length = i + xs.length := by
    simp [hlt]
  by_cases h1 : j < i
  · rw [if_neg (by omega), List.getElem?_append_left (by rw [hlen]; omega),
        List.getElem?_append_left (by rw [hlt]; omega),
        List.getElem?_take_of_lt h1]
  · by_cases h2 : j < i + xs.length
    · rw [if_pos (by omega), List.getElem?_append_left (by rw [hlen]; omega),
          List.getElem?_append_right (by rw [hlt]; omega), hlt]
    · rw [if_neg (by omega), List.getElem?_append_right (by rw [hlen]; omega),
          hlen, List.getElem?_drop]
      congr 1
      omega

/-- The bytes a block contributes to the output buffer: the
`compressed_size` bytes at the wrapping `u64` sum of the region base and the
block's compressed offset, inflated and truncated to `uncompressed_size`
when the block is compressed, raw otherwise. -/
def blockContent (inflate : List Nat → List Nat) (data : List Nat)
    (block_offset : Nat) (b : ModuleBlock) : List Nat :=
  if b.compressed then
    (inflate ((data.drop ((block_offset + b.compressed_offset) %
        18446744073709551616)).take b.compressed_size)).take b.uncompressed_size
  else
    (data.drop ((block_offset + b.compressed_offset) %
        18446744073709551616)).take b.compressed_size

/-- The pure effect of one block on the output buffer. -/
def applyBlock (inflate : List Nat → List Nat) (data : List Nat)
    (block_offset : Nat) (buf : List Nat) (b : ModuleBlock) : List Nat :=
  writeRange buf b.uncompressed_offset (blockContent inflate data block_offset b)

/-- The preconditions of claim C1 for one block: its source bytes lie within
the stream, its destination range lies within a `tus`-byte buffer, a
compressed block inflates to at least `uncompressed_size` bytes, and a raw
block has equal compressed and uncompressed sizes. -/
def BlockOk (inflate : List Nat → List Nat) (data : List Nat)
    (block_offset tus : Nat) (b : ModuleBlock) : Prop :=
  (block_offset + b.compressed_offset) % 18446744073709551616 +
      b.compressed_size ≤ data.length ∧
  b.uncompressed_offset + b.uncompressed_size ≤ tus ∧
  (b.compressed = true →
    b.uncompressed_size ≤
      (inflate ((data.drop ((block_offset + b.compressed_offset) %
          18446744073709551616)).take b.compressed_size)).length) ∧
  (b.compressed = false → b.compressed_size = b.uncompressed_size)

theorem blockContent_length {inflate : List Nat → List Nat} {data : List Nat}
    {block_offset tus : Nat} {b : ModuleBlock}
    (h : BlockOk inflate data block_offset tus b) :
    (blockContent inflate data block_offset b).length = b.uncompressed_size := by
  obtain ⟨hsrc, hdst, hc, hr⟩ := h
  unfold blockContent
  cases hb : b.compressed
  · rw [if_neg (by simp)]
    have := hr hb
    simp [List.length_take, List.length_drop]
    omega
  · rw [if_pos rfl]
    have := hc hb
    simp [List.length_take]
    omega

theorem processBlock_ok {inflate : List Nat → List Nat} {data : List Nat}
    {block_offset tus : Nat} {b : ModuleBlock} {buf : List Nat} {pos : Nat}
    (h : BlockOk inflate data block_offset tus b) (hlen : buf.length = tus) :
    processBlock inflate data block_offset buf b pos =
      .ok (applyBlock inflate data block_offset buf b)
        ((block_offset + b.compressed_offset) % 18446744073709551616 +
          b.compressed_size) := by
  obtain ⟨hsrc, hdst, hc, hr⟩ := h
  simp only [processBlock]
  rw [readExact_eq, if_pos hsrc]
  dsimp only
  cases hb : b.compressed
  · rw [if_neg (by simp)]
    have hcs : ((data.drop ((block_offset + b.compressed_offset) %
        18446744073709551616)).take b.compressed_size).length =
        b.uncompressed_size := by
      have := hr hb
      simp [List.length_take, List.length_drop]
      omega
    rw [if_pos hcs]
    rw [if_pos (show b.uncompressed_offset + b.uncompressed_size ≤ buf.length
          by omega)]
    simp [applyBlock, blockContent, hb]
  · rw [if_pos rfl, if_pos (hc hb)]
    rw [if_pos (show b.uncompressed_offset + b.uncompressed_size ≤ buf.length
          by omega)]
    simp [applyBlock, blockContent, hb]

theorem applyBlock_length {inflate : List Nat → List Nat} {data : List Nat}
    {block_offset tus : Nat} {b : ModuleBlock} {buf : List Nat}
    (h : BlockOk inflate data block_offset tus b) (hlen : buf.length = tus) :
    (applyBlock inflate data block_offset buf b).length = tus := by
  unfold applyBlock
  rw [writeRange_length]
  · exact hlen
  · rw [blockContent_length h]
    have := h.2.1
    omega

theorem foldl_applyBlock_length {inflate : List Nat → List Nat}
    {data : List Nat} {block_offset tus : Nat} :
    ∀ (l : List ModuleBlock) (buf : List Nat),
      (∀ b ∈ l, BlockOk inflate data block_offset tus b) →
      buf.length = tus →
      (l.foldl (applyBlock inflate data block_offset) buf).length = tus
  | [], buf, _, hlen => hlen
  | b :: rest, buf, hok, hlen => by
    rw [List.foldl_cons]
    exact foldl_applyBlock_length rest _ (fun x hx => hok x (by simp [hx]))
      (applyBlock_length (hok b (by simp)) hlen)

theorem processBlocks_ok {inflate : List Nat → List Nat} {data : List Nat}
    {block_offset tus : Nat} :
    ∀ (l : List ModuleBlock) (buf : List Nat) (pos : Nat),
      (∀ b ∈ l, BlockOk inflate data block_offset tus b) →
      buf.length = tus →
      ∃ p', processBlocks inflate data block_offset l buf pos =
        .ok (l.foldl (applyBlock inflate data block_offset) buf) p'
  | [], buf, pos, _, _ => ⟨pos, rfl⟩
  | b :: rest, buf, pos, hok, hlen => by
    obtain ⟨p', hp⟩ := processBlocks_ok rest
      (applyBlock inflate data block_offset buf b)
      ((block_offset + b.compressed_offset) % 18446744073709551616 +
        b.compressed_size)
      (fun x hx => hok x (by simp [hx]))
      (applyBlock_length (hok b (by simp)) hlen)
    refine ⟨p', ?_⟩
    simp only [processBlocks]
    rw [RM.bind_ok (processBlock_ok (hok b (by simp)) hlen)]
    rw [List.foldl_cons]
    exact hp

/-- The byte range `[i, i + n)` of a buffer. -/
def region (l : List Nat) (i n : Nat) : List Nat := (l.drop i).take n

theorem region_getElem? (l : List Nat) (i n j : Nat) :
    (region l i n)[j]? = if j < n then l[i + j]? else none := by
  unfold region
  by_cases h : j < n
  · rw [if_pos h, List.getElem?_take_of_lt h, List.getElem?_drop]
  · rw [if_neg h, List.getElem?_eq_none]
    simp [List.length_take, List.length_drop]
    omega

theorem region_writeRange_self {buf xs : List Nat} {i : Nat}
    (h : i + xs.length ≤ buf.length) :
    region (writeRange buf i xs) i xs.length = xs := by
  apply List.ext_getElem?
  intro j
  rw [region_getElem?]
  by_cases hj : j < xs.length
  · rw [if_pos hj, writeRange_getElem? h, if_pos (by omega)]
    congr 1
    omega
  · rw [if_neg hj, Eq.comm]
    exact List.getElem?_eq_none (by omega)

theorem region_writeRange_frame {buf xs : List Nat} {i' i n : Nat}
    (h : i' + xs.length ≤ buf.length)
    (hd : i + n ≤ i' ∨ i' + xs.length ≤ i) :
    region (writeRange buf i' xs) i n = region buf i n := by
  apply List.ext_getElem?
  intro j
  rw [region_getElem?, region_getElem?]
  by_cases hj : j < n
  · rw [if_pos hj, if_pos hj, writeRange_getElem? h, if_neg (by omega)]
  · rw [if_neg hj, if_neg hj]

/-- Destination ranges of two blocks do not overlap. -/
def rangesDisjoint (b1 b2 : ModuleBlock) : Prop :=
  b1.uncompressed_offset + b1.uncompressed_size ≤ b2.uncompressed_offset ∨
  b2.uncompressed_offset + b2.uncompressed_size ≤ b1.uncompressed_offset

theorem rangesDisjoint_symm {b1 b2 : ModuleBlock}
    (h : rangesDisjoint b1 b2) : rangesDisjoint b2 b1 := h.symm

theorem region_applyBlock_frame {inflate : List Nat → List Nat}
    {data : List Nat} {block_offset tus : Nat} {b : ModuleBlock}
    {buf : List Nat} {i n : Nat}
    (hb : BlockOk inflate data block_offset tus b) (hlen : buf.length = tus)
    (hd : i + n ≤ b.uncompressed_offset ∨
      b.uncompressed_offset + b.uncompressed_size ≤ i) :
    region (applyBlock inflate data block_offset buf b) i n =
      region buf i n := by
  unfold applyBlock
  rw [region_writeRange_frame]
  · rw [blockContent_length hb]
    have := hb.2.1
    omega
  · rw [blockContent_length hb]
    exact hd

theorem region_foldl_frame {inflate : List Nat → List Nat} {data : List Nat}
    {block_offset tus : Nat} {i n : Nat} :
    ∀ (l : List ModuleBlock) (buf : List Nat), buf.length = tus →
      (∀ b ∈ l, BlockOk inflate data block_offset tus b) →
      (∀ b ∈ l, i + n ≤ b.uncompressed_offset ∨
        b.uncompressed_offset + b.uncompressed_size ≤ i) →
      region (l.foldl (applyBlock inflate data block_offset) buf) i n =
        region buf i n
  | [], buf, _, _, _ => rfl
  | b :: rest, buf, hlen, hok, hd => by
    rw [List.foldl_cons]
    rw [region_foldl_frame rest _
        (applyBlock_length (hok b (by simp)) hlen)
        (fun x hx => hok x (by simp [hx]))
        (fun x hx => hd x (by simp [hx]))]
    exact region_applyBlock_frame (hok b (by simp)) hlen (hd b (by simp))

theorem region_applyBlock_self {inflate : List Nat → List Nat}
    {data : List Nat} {block_offset tus : Nat} {b : ModuleBlock}
    {buf : List Nat} (hb : BlockOk inflate data block_offset tus b)
    (hlen : buf.length = tus) :
    region (applyBlock inflate data block_offset buf b)
        b.uncompressed_offset b.uncompressed_size =
      blockContent inflate data block_offset b := by
  unfold applyBlock
  have hc := blockContent_length hb
  rw [← hc, region_writeRange_self]
  rw [hc, hlen]
  exact hb.2.1

theorem region_foldl_content {inflate : List Nat → List Nat}
    {data : List Nat} {block_offset tus : Nat}
    (l1 : List ModuleBlock) (b : ModuleBlock) (l2 : List ModuleBlock)
    (buf : List Nat) (hlen : buf.length = tus)
    (hok : ∀ x ∈ l1 ++ b :: l2, BlockOk inflate data block_offset tus x)
    (hd : ∀ x ∈ l2, rangesDisjoint b x) :
    region ((l1 ++ b :: l2).foldl (applyBlock inflate data block_offset) buf)
        b.uncompressed_offset b.uncompressed_size =
      blockContent inflate data block_offset b := by
  rw [List.foldl_append, List.foldl_cons]
  have hokb : BlockOk inflate data block_offset tus b := hok b (by simp)
  have hlen1 : (l1.foldl (applyBlock inflate data block_offset) buf).length =
      tus :=
    foldl_applyBlock_length l1 buf (fun x hx => hok x (by simp [hx])) hlen
  rw [region_foldl_frame l2 _
      (applyBlock_length hokb hlen1)
      (fun x hx => hok x (by simp [hx]))
      (fun x hx => hd x hx)]
  exact region_applyBlock_self hokb hlen1

theorem applyBlock_comm {inflate : List Nat → List Nat} {data : List Nat}
    {block_offset tus : Nat} {x y : ModuleBlock} {buf : List Nat}
    (hx : BlockOk inflate data block_offset tus x)
    (hy : BlockOk inflate data block_offset tus y)
    (hlen : buf.length = tus) (hd : rangesDisjoint x y) :
    applyBlock inflate data block_offset
        (applyBlock inflate data block_offset buf x) y =
      applyBlock inflate data block_offset
        (applyBlock inflate data block_offset buf y) x := by
  have hcx := blockContent_length hx
  have hcy := blockContent_length hy
  have hbx : x.uncompressed_offset +
      (blockContent inflate data block_offset x).length ≤ buf.length := by
    rw [hcx]
    have := hx.2.1
    omega
  have hby : y.uncompressed_offset +
      (blockContent inflate data block_offset y).length ≤ buf.length := by
    rw [hcy]
    have := hy.2.1
    omega
  have hwx : (writeRange buf x.uncompressed_offset
      (blockContent inflate data block_offset x)).length = buf.length :=
    writeRange_length hbx
  have hwy : (writeRange buf y.uncompressed_offset
      (blockContent inflate data block_offset y)).length = buf.length :=
    writeRange_length hby
  apply List.ext_getElem?
  intro j
  simp only [applyBlock]
  rw [writeRange_getElem? (by rw [hwx]; exact hby) j,
      writeRange_getElem? hbx j,
      writeRange_getElem? (by rw [hwy]; exact hbx) j,
      writeRange_getElem? hby j]
  rcases hd with hd | hd <;> split_ifs <;> first | rfl | omega

theorem foldl_applyBlock_perm {inflate : List Nat → List Nat}
    {data : List Nat} {block_offset tus : Nat} :
    ∀ {l1 l2 : List ModuleBlock}, l1.Perm l2 →
      (∀ b ∈ l1, BlockOk inflate data block_offset tus b) →
      l1.Pairwise rangesDisjoint →
      ∀ buf : List Nat, buf.length = tus →
      l1.foldl (applyBlock inflate data block_offset) buf =
        l2.foldl (applyBlock inflate data block_offset) buf := by
  intro l1 l2 hp
  induction hp with
  | nil => intro _ _ buf _; rfl
  | cons x hp ih =>
    intro hok hpw buf hlen
    rw [List.foldl_cons, List.foldl_cons]
    exact ih (fun b hb => hok b (by simp [hb])) (List.pairwise_cons.mp hpw).2 _
      (applyBlock_length (hok x (by simp)) hlen)
  | swap x y l =>
    intro hok hpw buf hlen
    rw [List.foldl_cons, List.foldl_cons, List.foldl_cons, List.foldl_cons]
    rw [applyBlock_comm (hok y (by simp)) (hok x (by simp)) hlen
      ((List.pairwise_cons.mp hpw).1 x (by simp))]
  | trans h12 h23 ih1 ih2 =>
    intro hok hpw buf hlen
    rw [ih1 hok hpw buf hlen]
    exact ih2 (fun b hb => hok b (h12.mem_iff.mpr hb))
      (h12.pairwise hpw fun h => rangesDisjoint_symm h) buf hlen

theorem usizeOfInt_of_nonneg {i : Int} (h0 : 0 ≤ i)
    (h1 : i < 18446744073709551616) : usizeOfInt i = i.toNat := by
  unfold usizeOfInt
  rw [Int.emod_eq_of_lt h0 (by norm_num; omega)]

theorem wrapI32_eq {x : Int} (h0 : -2147483648 ≤ x) (h1 : x < 2147483648) :
    wrapI32 x = x := by
  unfold wrapI32
  rw [Int.emod_eq_of_lt (by norm_num; omega) (by norm_num; omega)]
  norm_num

theorem i32OfU32_eq {v : Nat} (h : v < 2147483648) : i32OfU32 v = (v : Int) := by
  simp only [i32OfU32, toSigned]
  rw [if_pos (by norm_num; omega)]

/-- C1 (amended): for an entry with the HAS_BLOCKS flag and nonzero
`total_uncompressed_size`, when the block slice lies within the global block
array, every block's source bytes lie within the stream, every destination
range lies within the output buffer and the destination ranges are pairwise
disjoint, every raw block has equal sizes and every compressed block
inflates to at least its uncompressed size, `read_tag` produces a buffer of
length exactly `total_uncompressed_size` in which each block's destination
range holds that block's (inflated or raw) source bytes taken at
`(data_offset + entry.data_offset + compressed_offset) mod 2^64` — and the
same buffer results from processing the blocks in any order. -/
theorem read_tag_blocks_characterization
    (inflate : List Nat → List Nat) (data : List Nat) (m : H5Module)
    (index pos : Nat) (file : ModuleFileEntry) (boff : Nat)
    (slice : List ModuleBlock)
    (hf : m.files[index]? = some file)
    (h0 : file.total_uncompressed_size ≠ 0)
    (hb : file.flags.hasBlocks = true)
    (hboff : boff = (file.data_offset + m.data_offset) % 18446744073709551616)
    (hfbi : 0 ≤ file.first_block_index)
    (hslice : slice =
      (m.blocks.drop file.first_block_index.toNat).take file.block_count)
    (hrange : file.first_block_index.toNat + file.block_count ≤
      m.blocks.length)
    (hsmall : m.blocks.length < 2147483648)
    (hok : ∀ b ∈ slice, BlockOk inflate data boff file.total_uncompressed_size b)
    (hdisj : slice.Pairwise rangesDisjoint) :
    ∃ p', H5Module.read_tag inflate data m index pos =
        .ok (setEntryData m index file
          (slice.foldl (applyBlock inflate data boff)
            (List.replicate file.total_uncompressed_size 0))) p' ∧
      (slice.foldl (applyBlock inflate data boff)
          (List.replicate file.total_uncompressed_size 0)).length =
        file.total_uncompressed_size ∧
      (∀ b ∈ slice,
        region (slice.foldl (applyBlock inflate data boff)
            (List.replicate file.total_uncompressed_size 0))
          b.uncompressed_offset b.uncompressed_size =
        blockContent inflate data boff b) ∧
      (∀ l', slice.Perm l' →
        ∃ p'', processBlocks inflate data boff l'
            (List.replicate file.total_uncompressed_size 0) pos =
          .ok (slice.foldl (applyBlock inflate data boff)
            (List.replicate file.total_uncompressed_size 0)) p'') := by
  have hfbi31 : file.first_block_index < 2147483648 := by
    have := Int.toNat_of_nonneg hfbi
    omega
  have hbc31 : file.block_count < 2147483648 := by omega
  have hstart : usizeOfInt file.first_block_index =
      file.first_block_index.toNat :=
    usizeOfInt_of_nonneg hfbi (by omega)
  have hstop : usizeOfInt
      (wrapI32 (file.first_block_index + i32OfU32 file.block_count)) =
      file.first_block_index.toNat + file.block_count := by
    rw [i32OfU32_eq hbc31, wrapI32_eq (by omega) (by omega),
        usizeOfInt_of_nonneg (by omega) (by omega)]
    omega
  have hlenbuf : (List.replicate file.total_uncompressed_size 0).length =
      file.total_uncompressed_size := by simp
  subst hboff
  obtain ⟨p', hp⟩ := processBlocks_ok slice
    (List.replicate file.total_uncompressed_size 0) pos hok hlenbuf
  refine ⟨p', ?_, ?_, ?_, ?_⟩
  · simp only [H5Module.read_tag, hf]
    rw [if_neg h0, if_pos hb, hstart, hstop]
    rw [if_pos ⟨by omega, by omega⟩]
    rw [show file.first_block_index.toNat + file.block_count -
          file.first_block_index.toNat = file.block_count from by omega]
    rw [← hslice, hp]
    simp [setEntryData]
  · exact foldl_applyBlock_length slice _ hok hlenbuf
  · intro b hbmem
    obtain ⟨l1, l2, hsplit⟩ := List.append_of_mem hbmem
    have hok' := hok
    rw [hsplit] at hok' hdisj ⊢
    have hd2 : ∀ x ∈ l2, rangesDisjoint b x := by
      intro x hx
      have := (List.pairwise_append.mp hdisj).2.1
      exact (List.pairwise_cons.mp this).1 x hx
    exact region_foldl_content l1 b l2 _ hlenbuf hok' hd2
  · intro l' hperm
    obtain ⟨p'', hp''⟩ := processBlocks_ok l'
      (List.replicate file.total_uncompressed_size 0) pos
      (fun b hb => hok b (hperm.mem_iff.mpr hb)) hlenbuf
    refine ⟨p'', ?_⟩
    rw [hp'', ← foldl_applyBlock_perm hperm hok hdisj _ hlenbuf]

/-- First overlap-test block: raw, source byte 0, destination `[0, 1)`. -/
def bOv1 : ModuleBlock :=
  { compressed_offset := 0, compressed_size := 1, uncompressed_offset := 0,
    uncompressed_size := 1 }

/-- Second overlap-test block: raw, source byte 1, same destination
`[0, 1)`. -/
def bOv2 : ModuleBlock :=
  { compressed_offset := 1, compressed_size := 1, uncompressed_offset := 0,
    uncompressed_size := 1 }

/-- A HAS_BLOCKS entry with two blocks and a 1-byte output buffer. -/
def eOv : ModuleFileEntry :=
  { block_count := 2, first_block_index := 0, total_compressed_size := 2,
    total_uncompressed_size := 1, flags := { hasBlocks := true } }

/-- A module whose two blocks both write the whole 1-byte buffer. -/
def mOv : H5Module := { files := [eOv], blocks := [bOv1, bOv2] }

/-- Counterexample to C1 as stated: with two blocks whose declared
destination ranges overlap (all other stated preconditions hold), the
reconstructed buffer is `[66]` — the first block's bytes `[65]` are not at
its destination range, and the two processing orders yield different
buffers. -/
theorem read_tag_blocks_counterexample :
    H5Module.read_tag inflate0 [65, 66] mOv 0 0 =
      .ok (setEntryData mOv 0 eOv [66]) 2 ∧
    blockContent inflate0 [65, 66] 0 bOv1 = [65] ∧
    region [66] bOv1.uncompressed_offset bOv1.uncompressed_size = [66] ∧
    ([66] : List Nat) ≠ [65] ∧
    List.foldl (applyBlock inflate0 [65, 66] 0) [0] [bOv1, bOv2] = [66] ∧
    List.foldl (applyBlock inflate0 [65, 66] 0) [0] [bOv2, bOv1] = [65] ∧
    [bOv1, bOv2].Perm [bOv2, bOv1] :=
  ⟨by decide, by decide, by decide, by decide, by decide, by decide,
    List.Perm.swap bOv2 bOv1 []⟩

/-- Second witness block: raw, source byte 1, destination `[1, 2)`. -/
def bW2 : ModuleBlock :=
  { compressed_offset := 1, compressed_size := 1, uncompressed_offset := 1,
    uncompressed_size := 1 }

/-- A HAS_BLOCKS entry with two disjoint blocks and a 2-byte buffer. -/
def eW : ModuleFileEntry :=
  { block_count := 2, first_block_index := 0, total_compressed_size := 2,
    total_uncompressed_size := 2, flags := { hasBlocks := true } }

/-- A module with two disjoint raw blocks. -/
def mW : H5Module := { files := [eW], blocks := [bOv1, bW2] }

/-- Witness for C1: on the disjoint-block module the reconstructed buffer
has length 2 and the first block's destination range holds its source
byte. -/
theorem read_tag_blocks_characterization_witness :
    (([bOv1, bW2]).foldl (applyBlock inflate0 [70, 71] 0)
        (List.replicate 2 0)).length = 2 ∧
    region (([bOv1, bW2]).foldl (applyBlock inflate0 [70, 71] 0)
        (List.replicate 2 0)) 0 1 = blockContent inflate0 [70, 71] 0 bOv1 := by
  obtain ⟨p', h1, h2, h3, h4⟩ := read_tag_blocks_characterization inflate0
    [70, 71] mW 0 0 eW 0 [bOv1, bW2] rfl (by decide) rfl (by decide)
    (by decide) (by decide) (by decide) (by decide)
    (by
      intro b hb
      fin_cases hb <;> exact ⟨by decide, by decide, by decide, by decide⟩)
    (by
      refine List.pairwise_cons.mpr ⟨?_, List.pairwise_singleton _ _⟩
      intro x hx
      simp only [List.mem_singleton] at hx
      subst hx
      exact Or.inl (by decide))
  refine ⟨h2, ?_⟩
  have := h3 bOv1 (by simp)
  simpa [bOv1] using this
